import Mathlib

/-!
Verification of the content-generation core of the `website_automation`
repository: the document classifier (`src/lib/googleDoc.ts`), the prompt
resolvers (`src/lib/googleSheetsPrompts.ts`, `src/lib/promptsFromSheets.ts`),
the competitor lookup (`src/lib/googleSheets.ts`), the per-field and bulk
generation routes (`src/app/api/generate/[box]/route.ts`,
`src/app/api/generate/all/route.ts`) and the picture-batch route.

The TypeScript string primitives are modelled on `List Char`:
`strLower`/`strTrim`/`strContains`/`idxOf` mirror `toLowerCase`, `trim`,
`includes` and `indexOf`.  Remote fetches are modelled by passing the fetched
rows / flattened document elements as explicit arguments, and environment
configuration by small structures of flags.
-/

set_option autoImplicit false

/-! ## String primitives (JS semantics) -/

/-- JS `String.prototype.toLowerCase` (per-character, ASCII as in `Char.toLower`). -/
def strLower (s : String) : String := String.mk (s.toList.map Char.toLower)

/-- Drop leading and trailing whitespace from a character list. -/
def trimChars (cs : List Char) : List Char :=
  ((cs.dropWhile Char.isWhitespace).reverse.dropWhile Char.isWhitespace).reverse

/-- JS `String.prototype.trim`. -/
def strTrim (s : String) : String := String.mk (trimChars s.toList)

/-- Auxiliary scanner: does `needle` occur as a contiguous block of `hay`? -/
def containsAux (needle : List Char) : List Char → Bool
  | [] => needle.isEmpty
  | c :: t => needle.isPrefixOf (c :: t) || containsAux needle t

/-- JS `hay.includes(needle)` (substring containment). -/
def strContains (hay needle : String) : Bool := containsAux needle.toList hay.toList

/-- Index of the first occurrence of `needle` in a character list
(JS `indexOf`, with `none` for `-1`). -/
def idxOf (needle : List Char) : List Char → Option Nat
  | [] => if needle.isPrefixOf ([] : List Char) then some 0 else none
  | c :: t => if needle.isPrefixOf (c :: t) then some 0 else (idxOf needle t).map (fun n => n + 1)

/-- JS `hay.startsWith(p)`. -/
def strStartsWith (hay p : String) : Bool := p.toList.isPrefixOf hay.toList

/-- Split a character list on a single separator character, keeping empty
segments — JS `String.prototype.split(sep)` for a one-character separator. -/
def splitOnCharAux (sep : Char) (cur : List Char) : List Char → List (List Char)
  | [] => [cur.reverse]
  | c :: t =>
    if c = sep then cur.reverse :: splitOnCharAux sep [] t
    else splitOnCharAux sep (c :: cur) t

/-- JS `content.split(' ')` as a list of strings. -/
def splitWords (s : String) : List String := (splitOnCharAux ' ' [] s.toList).map String.mk

/-- JS `words.join(' ')`. -/
def joinWords (ws : List String) : String := String.mk (List.intercalate [' '] (ws.map String.toList))

/-- JS `s.charAt(0).toUpperCase() + s.slice(1)`. -/
def forceUpperFirst (s : String) : String :=
  match s.toList with
  | [] => s
  | c :: rest => String.mk (c.toUpper :: rest)

/-! ## Document classifier (`src/lib/googleDoc.ts`, `detectCategoryFromDoc`) -/

/-- One flattened document element (text, heading flag, heading level). -/
structure TextElement where
  text : String
  isHeading : Bool
  level : Nat
deriving DecidableEq, Repr

/-- Result shape of `detectCategoryFromDoc`.  Optional JS fields are `Option`s;
an absent `subtopics` field is `none`. -/
structure ClassificationResult where
  category : Option String
  reason : String
  matchedLine : Option String
  lineNumber : Option Nat
  subtopics : Option (List String)
deriving DecidableEq, Repr

/-- The keyword-match predicate of the classifier:
`element.text.toLowerCase().trim().includes(keywordLower)`. -/
def elemMatches (kw : String) (e : TextElement) : Bool :=
  strContains (strTrim (strLower e.text)) kw

/-- Locate the first element matching the keyword, returning the elements
before it, the element, and the elements after it (the `find`/`findIndex`
pair of the source, which both resolve to the first match). -/
def splitAtMatch (kw : String) : List TextElement → Option (List TextElement × TextElement × List TextElement)
  | [] => none
  | e :: rest =>
    if elemMatches kw e then some ([], e, rest)
    else
      match splitAtMatch kw rest with
      | none => none
      | some (b, m, a) => some (e :: b, m, a)

/-- The subtopic-collection loop: walk the elements after the match, stop at
the next heading, push each non-empty trimmed text that is not exactly the
keyword (case-insensitive). -/
def collectSubtopics (kw : String) : List TextElement → List String
  | [] => []
  | e :: rest =>
    if e.isHeading then []
    else if strTrim e.text ≠ "" ∧ strLower (strTrim e.text) ≠ kw then
      strTrim e.text :: collectSubtopics kw rest
    else collectSubtopics kw rest

/-- Classification core of `detectCategoryFromDoc` (lines 169–268): keyword
search over the flattened elements and the two-branch category rule. -/
def classifyElements (els : List TextElement) (keyword : String) : ClassificationResult :=
  let kw := strTrim (strLower keyword)
  match splitAtMatch kw els with
  | none =>
    { category := none
    , reason := "Keyword \"" ++ keyword ++ "\" not found in document"
    , matchedLine := none, lineNumber := none, subtopics := none }
  | some (before, m, after) =>
    if m.isHeading then
      let subs := collectSubtopics kw after
      { category := some "with subtopics"
      , reason := "\"" ++ keyword ++ "\" found as heading level " ++ toString m.level ++ " (with subtopics)"
      , matchedLine := some m.text
      , lineNumber := some (before.length + 1)
      , subtopics := if subs.isEmpty then none else some subs }
    else
      let parent := before.reverse.find? (fun e => e.isHeading)
      { category := some "no subtopics"
      , reason :=
          match parent with
          | some p => "\"" ++ keyword ++ "\" found under heading \"" ++ p.text ++ "\" (no subtopics)"
          | none => "\"" ++ keyword ++ "\" found as regular content (no subtopics)"
      , matchedLine := some m.text
      , lineNumber := some (before.length + 1)
      , subtopics := none }

/-- Configuration and fetch outcome for a `detectCategoryFromDoc` call:
the resolved document id (env var or URL extraction), presence of the OAuth
client credentials, the bearer token, and the result of the Docs API fetch
(already flattened into elements; a fetch failure or an empty/missing
document body is the `error` case). -/
structure DocEnv where
  documentId : Option String
  hasCreds : Bool
  accessToken : Option String
  fetchResult : Except String (List TextElement)

/-- `detectCategoryFromDoc` with its guard cascade (lines 43–107 and the
`catch` branch) around the classification core. -/
def detectCategoryFromDoc (env : DocEnv) (keyword : String) : ClassificationResult :=
  match env.documentId with
  | none =>
    { category := none
    , reason := "Could not extract document ID from URL and GOOGLE_DOC_ID not set"
    , matchedLine := none, lineNumber := none, subtopics := none }
  | some _ =>
    if env.hasCreds = false then
      { category := none, reason := "Google OAuth credentials not configured"
      , matchedLine := none, lineNumber := none, subtopics := none }
    else
      match env.accessToken with
      | none =>
        { category := none
        , reason := "No access token provided. User needs to authenticate with Google."
        , matchedLine := none, lineNumber := none, subtopics := none }
      | some _ =>
        match env.fetchResult with
        | Except.error msg =>
          { category := none, reason := "Google Docs API error: " ++ msg
          , matchedLine := none, lineNumber := none, subtopics := none }
        | Except.ok els => classifyElements els keyword

/-- A hard error of the classifier: unresolvable document id, missing
credentials, missing token, or a failed fetch. -/
def hardError (env : DocEnv) : Bool :=
  env.documentId.isNone || !env.hasCreds || env.accessToken.isNone ||
    (match env.fetchResult with | Except.error _ => true | Except.ok _ => false)

/-- A flattened document per the data model: every element's text is
non-empty and trimmed (flattening drops empty paragraphs and trims). -/
def Flattened (els : List TextElement) : Prop :=
  ∀ e ∈ els, strTrim e.text = e.text ∧ e.text ≠ ""

/-! ## Generation routes (`src/app/api/generate/[box]/route.ts`,
`src/app/api/generate/all/route.ts`) -/

/-- Outcome of one `/generate/{fieldId}` call: an `ok` JSON with the output,
or an error JSON with its HTTP status. -/
inductive PerFieldResult where
  | ok (output : String)
  | err (status : Nat) (msg : String)
deriving DecidableEq, Repr

/-- The valid-field list of `POST /generate/{fieldId}` (line 25). -/
def validFields : List String :=
  ["title", "intro", "pic1", "pic2", "pic3", "pic4", "subtopics", "cost", "why", "faq"]

/-- The request-validation prefix of `POST /generate/{fieldId}`.  Everything
after the validation cascade (OpenAI key, prompt fetch, model call) is
abstracted by `oracle`, which is only consulted for requests that pass
validation. -/
def perFieldRoute (oracle : String → PerFieldResult) (keyword flow fieldId : String) : PerFieldResult :=
  if strTrim keyword = "" then
    PerFieldResult.err 400 "Keyword is required and must be a non-empty string"
  else if flow ≠ "with subtopics" ∧ flow ≠ "no subtopics" then
    PerFieldResult.err 400 "Invalid flow. Must be \"with subtopics\" or \"no subtopics\""
  else if validFields.contains fieldId = false then
    PerFieldResult.err 400 ("Invalid field \"" ++ fieldId ++ "\"")
  else if fieldId = "subtopics" ∧ flow ≠ "with subtopics" then
    PerFieldResult.err 400 "Subtopics field is only available for \"with subtopics\" classification"
  else oracle fieldId

/-- The per-flow field lists of `POST /generate/all` (lines 22–24). -/
def flowFieldIds (flow : String) : List String :=
  if flow = "with subtopics" then
    ["wtitle", "wentro", "wpic1", "wpic2", "wpic3", "wpic4", "sub", "wcost", "wwhy", "wfaq"]
  else
    ["title", "entro", "pic1", "pic2", "pic3", "pic4", "cost", "why", "faq"]

/-- Aggregate response of `POST /generate/all`. -/
structure AllResponse where
  results : List (String × String)
  errors : List (String × String)
  flow : String
  fieldCount : Nat
  successCount : Nat
deriving DecidableEq, Repr

/-- The fan-out loop of `POST /generate/all`: call the per-field route for
each field, collecting outputs and error messages. -/
def runFields (oracle : String → PerFieldResult) (keyword flow : String) :
    List String → List (String × String) × List (String × String)
  | [] => ([], [])
  | f :: rest =>
    let tailRes := runFields oracle keyword flow rest
    match perFieldRoute oracle keyword flow f with
    | PerFieldResult.ok out => ((f, out) :: tailRes.1, tailRes.2)
    | PerFieldResult.err _ msg => (tailRes.1, (f, msg) :: tailRes.2)

/-- `POST /generate/all`: validation, fan-out, aggregation. -/
def generateAll (oracle : String → PerFieldResult) (keyword flow : String) :
    Except (Nat × String) AllResponse :=
  if strTrim keyword = "" then
    Except.error (400, "Keyword is required and must be a non-empty string")
  else if flow ≠ "with subtopics" ∧ flow ≠ "no subtopics" then
    Except.error (400, "Invalid flow. Must be \"with subtopics\" or \"no subtopics\"")
  else
    let fr := runFields oracle keyword flow (flowFieldIds flow)
    Except.ok
      { results := fr.1, errors := fr.2, flow := flow
      , fieldCount := (flowFieldIds flow).length, successCount := fr.1.length }

/-! ## Title casing (`[box]/route.ts` lines 283–299 and the picture-batch
route lines 153–173) -/

/-- The fixed small-word list shared by both title-casing passes. -/
def smallWords : List String :=
  ["a", "an", "the", "and", "or", "but", "in", "on", "at", "to", "for", "of", "with", "by"]

/-- JS `word.charAt(0).toUpperCase() + word.slice(1).toLowerCase()`. -/
def capWord (w : String) : String :=
  match w.toList with
  | [] => ""
  | c :: rest => String.mk (c.toUpper :: rest.map Char.toLower)

/-- The single-field route's small-word test: `content.indexOf(word) > 0`
(first occurrence of the word as a substring of the whole string). -/
def jsIndexOfPos (hay w : String) : Bool :=
  match idxOf w.toList hay.toList with
  | some i => decide (0 < i)
  | none => false

/-- Title casing of the single-field generator (`[box]/route.ts` 283–299),
applied when `fieldId = title`. -/
def titleCaseBox (content : String) : String :=
  let mapped := (splitWords content).map (fun word =>
    if smallWords.contains (strLower word) && jsIndexOfPos content word then strLower word
    else capWord word)
  let c := joinWords mapped
  if 0 < c.length then forceUpperFirst c else c

/-- Title casing of the picture-batch generator (picture route 158–169),
applied to a title line; the small-word test uses the word position `index`. -/
def titleCasePics (content : String) : String :=
  let mapped := (splitWords content).enum.map (fun iw =>
    if smallWords.contains (strLower iw.2) && decide (0 < iw.1) then strLower iw.2
    else capWord iw.2)
  let c := joinWords mapped
  if 0 < c.length then forceUpperFirst c else c

/-! ## Keyword placeholder substitution (`[box]/route.ts` lines 150–155) -/

/-- Match a pattern prefix under a character comparison, returning the rest
of the input on success. -/
def matchPrefix (eq : Char → Char → Bool) : List Char → List Char → Option (List Char)
  | [], rest => some rest
  | _ :: _, [] => none
  | p :: ps, c :: cs => if eq p c then matchPrefix eq ps cs else none

/-- Global regex replacement for a fixed non-empty literal pattern
`p0 :: ps` (leftmost match, continue after the match — JS
`String.prototype.replace` with a `g` regex).  The fuel argument only makes
the recursion structural: every step consumes at least one input character,
so fuel `l.length` (as supplied by `replaceScan`) never runs out. -/
def replaceScanF (eq : Char → Char → Bool) (p0 : Char) (ps repl : List Char) :
    Nat → List Char → List Char
  | 0, l => l
  | _ + 1, [] => []
  | fuel + 1, c :: cs =>
    if eq p0 c then
      match matchPrefix eq ps cs with
      | some rest => repl ++ replaceScanF eq p0 ps repl fuel rest
      | none => c :: replaceScanF eq p0 ps repl fuel cs
    else c :: replaceScanF eq p0 ps repl fuel cs

/-- Replacement entry point: fuel is the input length. -/
def replaceScan (eq : Char → Char → Bool) (p0 : Char) (ps repl l : List Char) : List Char :=
  replaceScanF eq p0 ps repl l.length l

/-- Does the scan find any match of the pattern `p0 :: ps`? -/
def scanHas (eq : Char → Char → Bool) (p0 : Char) (ps : List Char) : List Char → Bool
  | [] => false
  | c :: cs => (eq p0 c && (matchPrefix eq ps cs).isSome) || scanHas eq p0 ps cs

/-- Case-insensitive character comparison (the `i` regex flag). -/
def ciEq (a b : Char) : Bool := a.toLower = b.toLower

/-- Exact character comparison. -/
def exEq (a b : Char) : Bool := a = b

/-- Pattern tail of the case-insensitive placeholder pattern. -/
def ciPatTail : List Char := "\x7bkeyword\x7d\x7d".toList

/-- Pattern tail of the exact upper-case placeholder pattern. -/
def ucPatTail : List Char := "\x7bKEYWORD\x7d\x7d".toList

/-- `.replace(/{{keyword}}/gi, kw)` on character lists
(pattern written with escaped braces). -/
def replCI (kw cs : List Char) : List Char := replaceScan ciEq '\x7b' ciPatTail kw cs

/-- `.replace(/{{KEYWORD}}/g, kw)`. -/
def replUC (kw cs : List Char) : List Char := replaceScan exEq '\x7b' ucPatTail kw cs

/-- A JS word character (`\w` = `[A-Za-z0-9_]`). -/
def isWordChar (c : Char) : Bool := c.isAlpha || c.isDigit || c = '_'

/-- Does the boundary after a match hold (end of input or a non-word char)? -/
def nextNotWord : List Char → Bool
  | [] => true
  | d :: _ => !isWordChar d

/-- Pattern tail of the bare `KEYWORD` pattern. -/
def wordPatTail : List Char := "EYWORD".toList

/-- `.replace(/\bKEYWORD\b/g, kw)` — scan with the word-character class of
the previously consumed character as the left-boundary state.  Fuel as in
`replaceScanF`. -/
def replWordF (kw : List Char) : Nat → Bool → List Char → List Char
  | 0, _, l => l
  | _ + 1, _, [] => []
  | fuel + 1, prevW, c :: cs =>
    if c = 'K' ∧ prevW = false then
      match matchPrefix exEq wordPatTail cs with
      | some rest =>
        if nextNotWord rest then kw ++ replWordF kw fuel true rest
        else c :: replWordF kw fuel (isWordChar c) cs
      | none => c :: replWordF kw fuel (isWordChar c) cs
    else c :: replWordF kw fuel (isWordChar c) cs

/-- Bare-`KEYWORD` replacement entry point (start-of-string boundary state). -/
def replWordAux (kw : List Char) (prevW : Bool) (l : List Char) : List Char :=
  replWordF kw l.length prevW l

/-- Does the bare-`KEYWORD` scan find any match? -/
def hasWordAux (prevW : Bool) : List Char → Bool
  | [] => false
  | c :: cs =>
    ((c = 'K' && !prevW) &&
      (match matchPrefix exEq wordPatTail cs with
       | some rest => nextNotWord rest
       | none => false)) || hasWordAux (isWordChar c) cs

/-- The keyword-placeholder substitution of `generateContentWithOpenAI`
(lines 152–155): the three chained `replace` calls. -/
def substKeyword (t k : String) : String :=
  String.mk (replWordAux k.toList false (replUC k.toList (replCI k.toList t.toList)))

/-- Any case-insensitive placeholder occurrence? -/
def hasCI (cs : List Char) : Bool := scanHas ciEq '\x7b' ciPatTail cs

/-- Any exact upper-case placeholder occurrence? -/
def hasUC (cs : List Char) : Bool := scanHas exEq '\x7b' ucPatTail cs

/-! ## Competitor lookup (`src/lib/googleSheets.ts`, `getCompetitorUrlsFromSheets`) -/

/-- Environment of the competitor lookup: OAuth client credentials, the
configured sheet id, and the caller-supplied access token. -/
structure CompEnv where
  hasCreds : Bool
  sheetId : Option String
  accessToken : Option String

/-- Result shape of `getCompetitorUrlsFromSheets`. -/
structure SheetsResult where
  found : Bool
  rowNumber : Option Nat
  keywordCell : Option String
  competitorUrls : List String
  totalRows : Nat
  accessMethod : String
  error : Option String
deriving DecidableEq, Repr

/-- A URL separator of the column-H splitter (`/[\n\r,;]+/`). -/
def isUrlSep (c : Char) : Bool := c = '\n' || c = '\r' || c = ',' || c = ';'

/-- JS `split(/[\n\r,;]+/)`: maximal separator runs split the string; a run
at either end contributes an empty segment. -/
def splitSepsAux (inSep : Bool) (cur : List Char) : List Char → List (List Char)
  | [] => [cur.reverse]
  | c :: t =>
    if isUrlSep c then
      if inSep then splitSepsAux true cur t
      else cur.reverse :: splitSepsAux true [] t
    else splitSepsAux false (c :: cur) t

/-- Column-H URL extraction: split, trim, keep non-empty entries that start
with `http` or contain a dot. -/
def parseUrls (cellH : String) : List String :=
  ((splitSepsAux false [] cellH.toList).map (fun cs => strTrim (String.mk cs))).filter
    (fun u => 0 < u.length ∧ (strStartsWith u "http" ∨ strContains u "."))

/-- The row-scan loop of the competitor lookup (lines 419–445): the first row
whose column D (`row[0]` of the `D:H` range) case-insensitively contains the
keyword wins; returns its 1-based row number, cell text, and column-H cell. -/
def searchCompetitorRows (keyword : String) : Nat → List (List String) → Option (Nat × String × String)
  | _, [] => none
  | i, row :: rest =>
    let cellD := row.getD 0 ""
    if strContains (strLower cellD) (strLower keyword) then some (i + 1, cellD, row.getD 4 "")
    else searchCompetitorRows keyword (i + 1) rest

/-- `getCompetitorUrlsFromSheets` over explicit fetched rows. -/
def getCompetitorUrlsFromSheets (env : CompEnv) (keyword : String) (rows : List (List String)) : SheetsResult :=
  if env.hasCreds = false then
    { found := false, rowNumber := none, keywordCell := none, competitorUrls := []
    , totalRows := 0, accessMethod := "Google Sheets API v4 (OAuth credentials not configured)"
    , error := some "Google OAuth credentials not configured. Need GOOGLE_CLIENT_ID and GOOGLE_CLIENT_SECRET in environment variables." }
  else
    match env.sheetId with
    | none =>
      { found := false, rowNumber := none, keywordCell := none, competitorUrls := []
      , totalRows := 0, accessMethod := "Google Sheets API v4 (sheet ID not configured)"
      , error := some "GOOGLE_SHEET_ID not configured in environment variables." }
    | some _ =>
      match env.accessToken with
      | none =>
        { found := false, rowNumber := none, keywordCell := none, competitorUrls := []
        , totalRows := 0, accessMethod := "Google Sheets API v4 (no access token)"
        , error := some "No access token provided. User needs to authenticate with Google." }
      | some _ =>
        if rows.length = 0 then
          { found := false, rowNumber := none, keywordCell := none, competitorUrls := []
          , totalRows := 0, accessMethod := "Google Sheets API v4 OAuth"
          , error := some "No data found in the spreadsheet" }
        else
          match searchCompetitorRows keyword 0 rows with
          | none =>
            { found := false, rowNumber := none, keywordCell := none, competitorUrls := []
            , totalRows := rows.length, accessMethod := "Google Sheets API v4 OAuth"
            , error := some ("Keyword \"" ++ keyword ++ "\" not found in column D") }
          | some (rn, cell, cellH) =>
            { found := true, rowNumber := some rn, keywordCell := some cell
            , competitorUrls := if strTrim cellH ≠ "" then parseUrls cellH else []
            , totalRows := rows.length, accessMethod := "Google Sheets API v4 OAuth"
            , error := none }

/-! ## Single-prompt resolver (`src/lib/googleSheetsPrompts.ts`,
`getPromptFromSheets`) -/

/-- Result shape of `getPromptFromSheets`. -/
structure PromptResult where
  prompt : Option String
  exampleText : Option String
  found : Bool
  error : Option String
deriving DecidableEq, Repr

/-- Environment of the prompt resolver. -/
structure PromptsEnv where
  hasCreds : Bool
  sheetId : Option String

/-- The fixed fieldId → spreadsheet-name table of the resolver. -/
def promptFieldMappings : List (String × String) :=
  [("title", "Title"), ("intro", "Intro"), ("pic1", "Pic1"), ("pic2", "Pic2")
  , ("pic3", "Pic3"), ("pic4", "Pic4"), ("pictures", "Pictures")
  , ("subtopics", "Subtopics"), ("cost", "Cost"), ("why", "Why"), ("faq", "FAQ")]

/-- `mapFieldId` of `googleSheetsPrompts.ts`. -/
def mapFieldIdPrompts (fieldId : String) : String :=
  match promptFieldMappings.lookup fieldId with
  | some v => v
  | none => fieldId

/-- The row scan of `getPromptFromSheets` (lines 105–134 plus the fall-through
not-found return): rows with fewer than two cells are skipped; the first row
whose column B matches the mapped name case-insensitively decides. -/
def searchPromptRows (fieldId mapped : String) : List (List String) → PromptResult
  | [] =>
    { prompt := none, exampleText := none, found := false
    , error := some ("Field \"" ++ fieldId ++ "\" (mapped to \"" ++ mapped ++ "\") not found in Prompts tab") }
  | row :: rest =>
    if row.length < 2 then searchPromptRows fieldId mapped rest
    else
      let cellB := row.getD 0 ""
      if strTrim (strLower cellB) = strLower mapped then
        let prompt := row.getD 1 ""
        let exampleText := row.getD 2 ""
        if prompt = "" then
          { prompt := none, exampleText := none, found := false
          , error := some ("Field \"" ++ fieldId ++ "\" found but prompt is empty") }
        else
          { prompt := some prompt
          , exampleText := if exampleText = "" then none else some exampleText
          , found := true, error := none }
      else searchPromptRows fieldId mapped rest

/-- `getPromptFromSheets` over explicit fetched rows: the guard cascade, then
the scan over the non-header rows. -/
def getPromptFromSheets (env : PromptsEnv) (accessToken fieldId : String) (rows : List (List String)) : PromptResult :=
  if env.hasCreds = false then
    { prompt := none, exampleText := none, found := false
    , error := some "Google OAuth credentials not configured" }
  else
    match env.sheetId with
    | none =>
      { prompt := none, exampleText := none, found := false
      , error := some "GOOGLE_SHEET_ID not configured" }
    | some _ =>
      if accessToken = "" then
        { prompt := none, exampleText := none, found := false
        , error := some "No access token provided" }
      else if rows.length = 0 then
        { prompt := none, exampleText := none, found := false
        , error := some "No data found in Prompts tab" }
      else searchPromptRows fieldId (mapFieldIdPrompts fieldId) (rows.drop 1)

/-- The match predicate of the prompt-row scan, as a row test. -/
def promptRowMatches (mapped : String) (row : List String) : Bool :=
  decide (2 ≤ row.length) && decide (strTrim (strLower (row.getD 0 "")) = strLower mapped)

/-! ## Bulk prompt loader (`src/lib/promptsFromSheets.ts`) -/

/-- One loaded prompt row. -/
structure PromptData where
  fieldId : String
  fieldTitle : String
  prompt : String
  exampleText : String
  isSubtitlesOnly : Bool
deriving DecidableEq, Repr

/-- The title → fieldId table of `mapFieldTitleToId`, in source order. -/
def titleMappings : List (String × String) :=
  [("title", "title"), ("wtitle", "title")
  , ("introduction", "intro"), ("intro", "intro"), ("entro", "intro"), ("wentro", "intro")
  , ("picture 1", "pic1"), ("picture 2", "pic2"), ("picture 3", "pic3"), ("picture 4", "pic4")
  , ("pic1", "pic1"), ("pic2", "pic2"), ("pic3", "pic3"), ("pic4", "pic4")
  , ("wpic1", "pic1"), ("wpic2", "pic2"), ("wpic3", "pic3"), ("wpic4", "pic4")
  , ("cost", "cost"), ("cost information", "cost"), ("wcost", "cost")
  , ("why", "why"), ("why choose us", "why"), ("wwhy", "why")
  , ("faq", "faq"), ("faqs", "faq"), ("wfaq", "faq")
  , ("subtopics", "subtopics"), ("sub", "subtopics")]

/-- `mapFieldTitleToId`: exact lookup first, then the first partial match
(either containment direction); under the row-17 restriction only the
`subtopics` field survives. -/
def mapFieldTitleToId (fieldTitle : String) (isSubtitlesOnly : Bool) : Option String :=
  let title := strTrim (strLower fieldTitle)
  let restrict : String → Option String := fun fid =>
    if isSubtitlesOnly then (if fid = "subtopics" then some "subtopics" else none)
    else some fid
  match titleMappings.lookup title with
  | some fid => restrict fid
  | none =>
    match titleMappings.find? (fun kv => strContains title kv.1 || strContains kv.1 title) with
    | some kv => restrict kv.2
    | none => none

/-- The four picture field ids. -/
def pictureFieldIds : List String := ["pic1", "pic2", "pic3", "pic4"]

/-- The row loop of `getPromptsFromSheet` (lines 93–145): skip blank rows,
fan row 13 out across the four picture fields, skip individually mapped
picture rows, apply the row-17 restriction, and collect the rest. -/
def processRowsAux : Nat → List (List String) → List PromptData
  | _, [] => []
  | i, row :: rest =>
    let fieldTitle := row.getD 0 ""
    let prompt := row.getD 1 ""
    let exampleText := row.getD 2 ""
    if strTrim fieldTitle = "" ∨ strTrim prompt = "" then processRowsAux (i + 1) rest
    else if i + 1 = 13 then
      (pictureFieldIds.map (fun p =>
        { fieldId := p, fieldTitle := p, prompt := strTrim prompt
        , exampleText := strTrim exampleText, isSubtitlesOnly := false })) ++ processRowsAux (i + 1) rest
    else
      match mapFieldTitleToId fieldTitle (decide (i + 1 = 17)) with
      | none => processRowsAux (i + 1) rest
      | some fid =>
        if pictureFieldIds.contains fid then processRowsAux (i + 1) rest
        else
          { fieldId := fid, fieldTitle := strTrim fieldTitle, prompt := strTrim prompt
          , exampleText := strTrim exampleText, isSubtitlesOnly := decide (i + 1 = 17) } :: processRowsAux (i + 1) rest

/-- The prompt list produced by `getPromptsFromSheet` from fetched rows. -/
def getPromptsFromSheet (rows : List (List String)) : List PromptData :=
  processRowsAux 0 rows

/-! ## Picture-batch selection (picture route, lines 129–180) -/

/-- The random-selection loop: JS `Set` insertion modelled as append-if-new
over the stream of drawn indices; `none` when the supplied stream is
exhausted before the loop condition fails. -/
def selectIndices (n : Nat) : List Nat → List Nat → Option (List Nat)
  | [], acc => if 4 ≤ acc.length ∨ n ≤ acc.length then some acc else none
  | d :: rest, acc =>
    if 4 ≤ acc.length ∨ n ≤ acc.length then some acc
    else selectIndices n rest (if d ∈ acc then acc else acc ++ [d])

/-- `title\nsummary` formatting of one selected combination. -/
def formatCombo (c : String × String) : String := c.1 ++ "\n" ++ c.2

/-- Proper-casing pass of the picture route: split an output on newlines and
title-case the first line. -/
def properCaseFirstLine (s : String) : String :=
  match splitOnCharAux '\n' [] s.toList with
  | [] => s
  | l0 :: restLines =>
    String.mk (List.intercalate ['\n'] ((titleCasePics (String.mk l0)).toList :: restLines))

/-- The tail of the picture-batch route after parsing: fail when fewer than
4 combinations were recovered, otherwise run the selection loop on the drawn
indices (each `Math.floor(Math.random() * Math.min(n, 13))`) and build the
four outputs. -/
def picturesSelect (combos : List (String × String)) (draws : List Nat) :
    Option (Except String (List Nat × List (String × String))) :=
  if combos.length < 4 then
    some (Except.error ("Only found " ++ toString combos.length ++
      " combinations. Need at least 4. Response may not be in expected format."))
  else
    match selectIndices combos.length draws [] with
    | none => none
    | some idxs =>
      let sel := idxs.map (fun i => combos.getD i ("", ""))
      some (Except.ok (idxs,
        [ ("pic1", properCaseFirstLine (formatCombo (sel.getD 0 ("", ""))))
        , ("pic2", properCaseFirstLine (formatCombo (sel.getD 1 ("", ""))))
        , ("pic3", properCaseFirstLine (formatCombo (sel.getD 2 ("", ""))))
        , ("pic4", properCaseFirstLine (formatCombo (sel.getD 3 ("", ""))))]))

/-! ## Supporting lemmas: classifier -/

theorem splitAtMatch_eq (kw : String) :
    ∀ els b m a, splitAtMatch kw els = some (b, m, a) →
      els = b ++ m :: a ∧ elemMatches kw m = true ∧ ∀ e ∈ b, elemMatches kw e = false := by
  intro els
  induction els with
  | nil => intro b m a h; cases h
  | cons e rest ih =>
    intro b m a h
    simp only [splitAtMatch] at h
    by_cases he : elemMatches kw e = true
    · rw [if_pos he] at h
      cases h
      exact ⟨rfl, he, by intro x hx; cases hx⟩
    · rw [if_neg he] at h
      cases hsm : splitAtMatch kw rest with
      | none => rw [hsm] at h; cases h
      | some t =>
        obtain ⟨b2, m2, a2⟩ := t
        rw [hsm] at h
        cases h
        obtain ⟨h1, h2, h3⟩ := ih b2 m a hsm
        refine ⟨by rw [List.cons_append, h1], h2, ?_⟩
        intro x hx
        rcases List.mem_cons.mp hx with hx | hx
        · subst hx
          exact Bool.eq_false_iff.mpr (fun hc => he hc)
        · exact h3 x hx

theorem splitAtMatch_cons_none (kw : String) (e : TextElement) (rest : List TextElement) :
    splitAtMatch kw (e :: rest) = none ↔
      elemMatches kw e = false ∧ splitAtMatch kw rest = none := by
  simp only [splitAtMatch]
  by_cases he : elemMatches kw e = true
  · simp [he]
  · cases hsm : splitAtMatch kw rest with
    | none => simp [he, hsm, Bool.eq_false_iff]
    | some t =>
      obtain ⟨b2, m2, a2⟩ := t
      simp [he, hsm, Bool.eq_false_iff]

theorem splitAtMatch_none_iff (kw : String) :
    ∀ els, splitAtMatch kw els = none ↔ ∀ e ∈ els, elemMatches kw e = false := by
  intro els
  induction els with
  | nil => simp [splitAtMatch]
  | cons e rest ih =>
    rw [splitAtMatch_cons_none, ih]
    constructor
    · intro h x hx
      rcases List.mem_cons.mp hx with hx | hx
      · rw [hx]; exact h.1
      · exact h.2 x hx
    · intro h
      exact ⟨h e (List.mem_cons_self e rest), fun x hx => h x (List.mem_cons_of_mem e hx)⟩

theorem collectSubtopics_eq (kw : String) :
    ∀ l, (∀ e ∈ l, strTrim e.text = e.text ∧ e.text ≠ "") →
      collectSubtopics kw l =
        ((l.takeWhile (fun e => !e.isHeading)).map (fun e => strTrim e.text)).filter
          (fun t => decide (strLower t ≠ kw)) := by
  intro l
  induction l with
  | nil => intro _; rfl
  | cons e rest ih =>
    intro hf
    have he := hf e (List.mem_cons_self e rest)
    have hrest := fun x hx => hf x (List.mem_cons_of_mem e hx)
    have hne : strTrim e.text ≠ "" := by rw [he.1]; exact he.2
    simp only [collectSubtopics, List.takeWhile]
    cases hh : e.isHeading with
    | true => simp
    | false =>
      simp only [Bool.not_false, List.map_cons, List.filter_cons]
      by_cases hkw : strLower (strTrim e.text) ≠ kw
      · rw [if_pos (And.intro hne hkw), ih hrest]
        simp [hkw]
      · rw [if_neg (fun hc => hkw (And.right hc)), ih hrest]
        simp [hkw]

/-- Claim C1: for every flattened document and non-empty keyword, if the
first element whose lower-cased text contains the lower-cased trimmed keyword
is a heading, classification returns category `"with subtopics"`, and the
subtopic list is exactly the trimmed texts, in document order, of the
elements strictly between the match and the next heading (or the end),
omitting exactly those whose trimmed text case-insensitively equals the
keyword (the list is carried in the `subtopics` field, absent when empty). -/
theorem classify_heading_gives_subtopics
    (els : List TextElement) (keyword : String)
    (b : List TextElement) (m : TextElement) (a : List TextElement)
    (hflat : Flattened els) (hkw : keyword ≠ "")
    (hsplit : splitAtMatch (strTrim (strLower keyword)) els = some (b, m, a))
    (hhead : m.isHeading = true) :
    (classifyElements els keyword).category = some "with subtopics" ∧
    (classifyElements els keyword).subtopics =
      (if (((a.takeWhile (fun e => !e.isHeading)).map (fun e => strTrim e.text)).filter
            (fun t => decide (strLower t ≠ strTrim (strLower keyword)))).isEmpty then none
       else some (((a.takeWhile (fun e => !e.isHeading)).map (fun e => strTrim e.text)).filter
            (fun t => decide (strLower t ≠ strTrim (strLower keyword))))) := by
  have hdec := splitAtMatch_eq _ els b m a hsplit
  have hflatA : ∀ e ∈ a, strTrim e.text = e.text ∧ e.text ≠ "" := by
    intro e he
    refine hflat e ?_
    rw [hdec.1]
    exact List.mem_append_right _ (List.mem_cons_of_mem _ he)
  have hcoll := collectSubtopics_eq (strTrim (strLower keyword)) a hflatA
  simp only [classifyElements, hsplit, hhead, if_true, hcoll]
  constructor <;> trivial

/-- Witness for C1: the six-element document of the spec's scenario with
keyword `"Mattress Removal"`; the duplicate line equal to the keyword is
omitted from the subtopics. -/
theorem classify_heading_gives_subtopics_witness :
    (classifyElements
      [⟨"Mattress Removal", true, 1⟩, ⟨"One", false, 0⟩, ⟨"Two", false, 0⟩,
       ⟨"mattress removal", false, 0⟩, ⟨"Other", true, 1⟩, ⟨"Three", false, 0⟩]
      "Mattress Removal").category = some "with subtopics" ∧
    (classifyElements
      [⟨"Mattress Removal", true, 1⟩, ⟨"One", false, 0⟩, ⟨"Two", false, 0⟩,
       ⟨"mattress removal", false, 0⟩, ⟨"Other", true, 1⟩, ⟨"Three", false, 0⟩]
      "Mattress Removal").subtopics = some ["One", "Two"] := by
  have h := classify_heading_gives_subtopics
    [⟨"Mattress Removal", true, 1⟩, ⟨"One", false, 0⟩, ⟨"Two", false, 0⟩,
     ⟨"mattress removal", false, 0⟩, ⟨"Other", true, 1⟩, ⟨"Three", false, 0⟩]
    "Mattress Removal"
    [] ⟨"Mattress Removal", true, 1⟩
    [⟨"One", false, 0⟩, ⟨"Two", false, 0⟩, ⟨"mattress removal", false, 0⟩,
     ⟨"Other", true, 1⟩, ⟨"Three", false, 0⟩]
    (by unfold Flattened; decide) (by decide) (by decide) (by decide)
  exact ⟨h.1, by rw [h.2]; decide⟩

/-- Claim C5: `category = null` iff no flattened element contains the keyword
or a hard error occurred (unresolvable document id, missing credentials,
missing token, fetch failure); and the `subtopics` field is present only when
`category = "with subtopics"` and at least one qualifying element follows the
match before the next heading. -/
theorem detect_category_invariants (env : DocEnv) (keyword : String) :
    ((detectCategoryFromDoc env keyword).category = none ↔
      (hardError env = true ∨
        ∃ els, env.fetchResult = Except.ok els ∧
          ∀ e ∈ els, elemMatches (strTrim (strLower keyword)) e = false)) ∧
    (∀ l, (detectCategoryFromDoc env keyword).subtopics = some l →
      (detectCategoryFromDoc env keyword).category = some "with subtopics" ∧ l ≠ []) := by
  obtain ⟨did, creds, tok, fr⟩ := env
  cases did with
  | none => simp [detectCategoryFromDoc, hardError]
  | some d =>
    cases creds with
    | false => simp [detectCategoryFromDoc, hardError]
    | true =>
      cases tok with
      | none => simp [detectCategoryFromDoc, hardError]
      | some t =>
        cases fr with
        | error msg => simp [detectCategoryFromDoc, hardError]
        | ok els =>
          simp only [detectCategoryFromDoc, hardError, Option.isNone_none, Option.isNone_some,
            Bool.not_true, Bool.or_false, Bool.false_or, Except.ok.injEq]
          constructor
          · cases hm : splitAtMatch (strTrim (strLower keyword)) els with
            | none =>
              simp only [classifyElements, hm]
              constructor
              · intro _
                exact Or.inr ⟨els, rfl, (splitAtMatch_none_iff _ els).mp hm⟩
              · intro _; rfl
            | some t2 =>
              obtain ⟨b, m, a⟩ := t2
              simp only [classifyElements, hm]
              constructor
              · intro hcat
                by_cases hh : m.isHeading = true
                · rw [if_pos hh] at hcat; cases hcat
                · rw [if_neg hh] at hcat; cases hcat
              · intro hr
                rcases hr with hr | ⟨els2, hels2, hall⟩
                · cases hr
                · have : splitAtMatch (strTrim (strLower keyword)) els = none := by
                    refine (splitAtMatch_none_iff _ els).mpr ?_
                    intro e he
                    exact hall e (hels2 ▸ he)
                  rw [hm] at this
                  cases this
          · intro l hl
            cases hm : splitAtMatch (strTrim (strLower keyword)) els with
            | none => simp only [classifyElements, hm] at hl; cases hl
            | some t2 =>
              obtain ⟨b, m, a⟩ := t2
              simp only [classifyElements, hm] at hl ⊢
              by_cases hh : m.isHeading = true
              · rw [if_pos hh] at hl
                rw [if_pos hh]
                refine ⟨rfl, ?_⟩
                by_cases hemp : (collectSubtopics (strTrim (strLower keyword)) a).isEmpty = true
                · rw [if_pos hemp] at hl; cases hl
                · rw [if_neg hemp] at hl
                  cases hl
                  intro hc
                  rw [hc] at hemp
                  exact hemp rfl
              · rw [if_neg hh] at hl
                cases hl

/-! ## Supporting lemmas: generation routes -/

theorem perFieldRoute_invalid_field (oracle : String → PerFieldResult)
    (keyword flow fieldId : String) (hkw : strTrim keyword ≠ "")
    (hflow : ¬(flow ≠ "with subtopics" ∧ flow ≠ "no subtopics"))
    (hf : validFields.contains fieldId = false) :
    perFieldRoute oracle keyword flow fieldId =
      PerFieldResult.err 400 ("Invalid field \"" ++ fieldId ++ "\"") := by
  unfold perFieldRoute
  rw [if_neg hkw, if_neg hflow, if_pos hf]

theorem runFields_all_err (oracle : String → PerFieldResult) (keyword flow : String) :
    ∀ fs, (∀ f ∈ fs, ∃ s m, perFieldRoute oracle keyword flow f = PerFieldResult.err s m) →
      (runFields oracle keyword flow fs).1 = [] ∧
      (runFields oracle keyword flow fs).2.map Prod.fst = fs := by
  intro fs
  induction fs with
  | nil => intro _; exact ⟨rfl, rfl⟩
  | cons f rest ih =>
    intro h
    obtain ⟨s, m, hf⟩ := h f (List.mem_cons_self f rest)
    have hrest := ih (fun x hx => h x (List.mem_cons_of_mem f hx))
    simp only [runFields, hf]
    exact ⟨hrest.1, by rw [List.map_cons, hrest.2]⟩

/-- Claim C2: for the "with subtopics" flow, `POST /generate/all` fans out to
`wtitle, wentro, wpic1..wpic4, sub, wcost, wwhy, wfaq`, none of which is in
the valid-field list of `POST /generate/{fieldId}`, so every per-field call
returns status 400 and the aggregate always has `successCount = 0` with an
error entry for all 10 fields; for the "no subtopics" flow the id `entro` is
likewise always rejected. -/
theorem generate_all_fields_rejected (oracle : String → PerFieldResult)
    (keyword : String) (hkw : strTrim keyword ≠ "") :
    (∀ f ∈ flowFieldIds "with subtopics",
      validFields.contains f = false ∧
      perFieldRoute oracle keyword "with subtopics" f =
        PerFieldResult.err 400 ("Invalid field \"" ++ f ++ "\"")) ∧
    (∃ resp, generateAll oracle keyword "with subtopics" = Except.ok resp ∧
      resp.successCount = 0 ∧ resp.results = [] ∧
      resp.errors.map Prod.fst = flowFieldIds "with subtopics" ∧ resp.fieldCount = 10) ∧
    (validFields.contains "entro" = false ∧
      perFieldRoute oracle keyword "no subtopics" "entro" =
        PerFieldResult.err 400 ("Invalid field \"entro\"")) := by
  have hmain : ∀ f ∈ flowFieldIds "with subtopics",
      validFields.contains f = false ∧
      perFieldRoute oracle keyword "with subtopics" f =
        PerFieldResult.err 400 ("Invalid field \"" ++ f ++ "\"") := by
    intro f hf
    fin_cases hf <;>
      exact ⟨by decide, perFieldRoute_invalid_field oracle keyword _ _ hkw (by decide) (by decide)⟩
  refine ⟨hmain, ?_, by decide, perFieldRoute_invalid_field oracle keyword _ _ hkw (by decide) (by decide)⟩
  have hrun := runFields_all_err oracle keyword "with subtopics" (flowFieldIds "with subtopics")
    (fun f hf => ⟨400, "Invalid field \"" ++ f ++ "\"", (hmain f hf).2⟩)
  have hgen : generateAll oracle keyword "with subtopics" = Except.ok
      { results := (runFields oracle keyword "with subtopics" (flowFieldIds "with subtopics")).1
      , errors := (runFields oracle keyword "with subtopics" (flowFieldIds "with subtopics")).2
      , flow := "with subtopics"
      , fieldCount := (flowFieldIds "with subtopics").length
      , successCount := (runFields oracle keyword "with subtopics" (flowFieldIds "with subtopics")).1.length } := by
    unfold generateAll
    rw [if_neg hkw, if_neg (by decide)]
  exact ⟨_, hgen, by rw [hrun.1]; rfl, hrun.1, hrun.2, rfl⟩

/-- Witness for C2 at the concrete keyword "mattress removal" and an oracle
that would succeed for any valid field. -/
theorem generate_all_fields_rejected_witness :
    perFieldRoute (fun _ => PerFieldResult.ok "out") "mattress removal" "with subtopics" "wtitle" =
      PerFieldResult.err 400 "Invalid field \"wtitle\"" ∧
    (∃ resp, generateAll (fun _ => PerFieldResult.ok "out") "mattress removal" "with subtopics" = Except.ok resp ∧
      resp.successCount = 0 ∧ resp.results = [] ∧
      resp.errors.map Prod.fst = flowFieldIds "with subtopics" ∧ resp.fieldCount = 10) ∧
    perFieldRoute (fun _ => PerFieldResult.ok "out") "mattress removal" "no subtopics" "entro" =
      PerFieldResult.err 400 "Invalid field \"entro\"" := by
  have h := generate_all_fields_rejected (fun _ => PerFieldResult.ok "out") "mattress removal"
    (by decide)
  exact ⟨(h.1 "wtitle" (by decide)).2, h.2.1, h.2.2.2⟩

/-! ## Supporting lemmas: competitor lookup -/

theorem searchCompetitorRows_none_iff (kw : String) :
    ∀ rows i, searchCompetitorRows kw i rows = none ↔
      ∀ r ∈ rows, strContains (strLower (r.getD 0 "")) (strLower kw) = false := by
  intro rows
  induction rows with
  | nil => intro i; simp [searchCompetitorRows]
  | cons r rest ih =>
    intro i
    simp only [searchCompetitorRows]
    by_cases hr : strContains (strLower (r.getD 0 "")) (strLower kw) = true
    · rw [if_pos hr]
      simp only [List.mem_cons]
      constructor
      · intro h; cases h
      · intro h
        have := h r (Or.inl rfl)
        rw [hr] at this
        cases this
    · rw [if_neg hr]
      rw [ih (i + 1)]
      simp only [List.mem_cons]
      constructor
      · intro h x hx
        rcases hx with hx | hx
        · subst hx; exact Bool.eq_false_iff.mpr hr
        · exact h x hx
      · intro h x hx
        exact h x (Or.inr hx)

theorem searchCompetitorRows_first (kw : String) (row : List String) (a : List (List String))
    (hrow : strContains (strLower (row.getD 0 "")) (strLower kw) = true) :
    ∀ b i, (∀ r ∈ b, strContains (strLower (r.getD 0 "")) (strLower kw) = false) →
      searchCompetitorRows kw i (b ++ row :: a) =
        some (i + b.length + 1, row.getD 0 "", row.getD 4 "") := by
  intro b
  induction b with
  | nil =>
    intro i _
    have hstep : ([] : List (List String)) ++ row :: a = row :: a := rfl
    rw [hstep]
    simp only [searchCompetitorRows]
    rw [if_pos hrow]
    rfl
  | cons r b2 ih =>
    intro i hall
    have hr := hall r (List.mem_cons_self r b2)
    have hrest := fun x hx => hall x (List.mem_cons_of_mem r hx)
    have hstep : (r :: b2) ++ row :: a = r :: (b2 ++ row :: a) := rfl
    rw [hstep]
    simp only [searchCompetitorRows]
    rw [if_neg (by rw [hr]; exact Bool.false_ne_true)]
    rw [ih (i + 1) hrest]
    simp only [Option.some.injEq, Prod.mk.injEq, List.length_cons, and_true]
    omega

/-- Claim C3 counterexample: with keyword `"removal"` and a sheet whose only
column-D cell is `"mattress removal"`, the lookup reports `found = true`
although no row's keyword column case-insensitively *equals* the keyword: the
code matches by substring containment, not exact equality. -/
theorem competitor_exact_match_counterexample :
    (getCompetitorUrlsFromSheets ⟨true, some "sid", some "tok"⟩ "removal"
        [["mattress removal", "", "", "", "a.com"]]).found = true ∧
    (([["mattress removal", "", "", "", "a.com"]] : List (List String)).any
        (fun r => decide (strLower (r.getD 0 "") = strLower "removal"))) = false := by
  decide

/-- Claim C3 amended: the competitor lookup returns `found = true` exactly
when some row's column D case-insensitively *contains* the keyword as a
substring (not exact equality), taking the first such row; that row supplies
the 1-based row number, the matched cell, and the URLs split out of column H
(so an exact-equality row such as `"mattress removal"` with column H
`"a.com, b.com"` still yields `found = true` and `["a.com", "b.com"]`). -/
theorem competitor_lookup_contains (keyword sid tok : String) (rows : List (List String)) :
    ((getCompetitorUrlsFromSheets ⟨true, some sid, some tok⟩ keyword rows).found = true ↔
      ∃ r ∈ rows, strContains (strLower (r.getD 0 "")) (strLower keyword) = true) ∧
    (∀ b row a, rows = b ++ row :: a →
      (∀ r ∈ b, strContains (strLower (r.getD 0 "")) (strLower keyword) = false) →
      strContains (strLower (row.getD 0 "")) (strLower keyword) = true →
      (getCompetitorUrlsFromSheets ⟨true, some sid, some tok⟩ keyword rows).rowNumber = some (b.length + 1) ∧
      (getCompetitorUrlsFromSheets ⟨true, some sid, some tok⟩ keyword rows).keywordCell = some (row.getD 0 "") ∧
      (getCompetitorUrlsFromSheets ⟨true, some sid, some tok⟩ keyword rows).competitorUrls =
        (if strTrim (row.getD 4 "") ≠ "" then parseUrls (row.getD 4 "") else [])) := by
  constructor
  · by_cases hrows : rows.length = 0
    · have hnil : rows = [] := List.length_eq_zero.mp hrows
      subst hnil
      simp [getCompetitorUrlsFromSheets]
    · simp only [getCompetitorUrlsFromSheets, reduceIte, if_neg hrows]
      cases hm : searchCompetitorRows keyword 0 rows with
      | none =>
        simp only []
        constructor
        · intro h; cases h
        · intro h
          obtain ⟨r, hr, hc⟩ := h
          have := (searchCompetitorRows_none_iff keyword rows 0).mp hm r hr
          rw [hc] at this
          cases this
      | some t =>
        obtain ⟨rn, cell, cellH⟩ := t
        simp only []
        constructor
        · intro _
          by_contra hno
          push_neg at hno
          have : searchCompetitorRows keyword 0 rows = none := by
            refine (searchCompetitorRows_none_iff keyword rows 0).mpr ?_
            intro r hr
            exact Bool.eq_false_iff.mpr (hno r hr)
          rw [hm] at this
          cases this
        · intro _; rfl
  · intro b row a hb hall hrow
    subst hb
    have hm := searchCompetitorRows_first keyword row a hrow b 0 hall
    have hlen : ¬((b ++ row :: a).length = 0) := by simp
    simp only [getCompetitorUrlsFromSheets, reduceIte, if_neg hlen, hm]
    refine ⟨by simp, rfl, rfl⟩

/-- Witness for C3: the spec's scenario input evaluated through the amended
characterization. -/
theorem competitor_lookup_contains_witness :
    (getCompetitorUrlsFromSheets ⟨true, some "sid", some "tok"⟩ "mattress removal"
        [["Mattress Removal", "", "", "", "a.com, b.com"]]).found = true ∧
    (getCompetitorUrlsFromSheets ⟨true, some "sid", some "tok"⟩ "mattress removal"
        [["Mattress Removal", "", "", "", "a.com, b.com"]]).competitorUrls = ["a.com", "b.com"] := by
  have h := competitor_lookup_contains "mattress removal" "sid" "tok"
    [["Mattress Removal", "", "", "", "a.com, b.com"]]
  refine ⟨h.1.mpr ⟨["Mattress Removal", "", "", "", "a.com, b.com"], by decide, by decide⟩, ?_⟩
  have h2 := h.2 [] ["Mattress Removal", "", "", "", "a.com, b.com"] [] rfl
    (by intro r hr; cases hr) (by decide)
  rw [h2.2.2]
  decide

/-! ## Supporting lemmas: prompt resolver -/

theorem containsAux_of_parts (n : List Char) :
    ∀ pre suf, containsAux n (pre ++ n ++ suf) = true := by
  intro pre
  induction pre with
  | nil =>
    intro suf
    have hpre : n.isPrefixOf (n ++ suf) = true := by
      rw [List.isPrefixOf_iff_prefix]
      exact List.prefix_append _ _
    cases hn : n with
    | nil => cases suf <;> simp [containsAux]
    | cons c cs =>
      rw [hn] at hpre
      simp only [List.nil_append, List.cons_append] at hpre ⊢
      simp only [containsAux, hpre, Bool.true_or]
  | cons p ps ih =>
    intro suf
    have hstep : (p :: ps) ++ n ++ suf = p :: (ps ++ n ++ suf) := by simp
    rw [hstep]
    simp only [containsAux]
    rw [ih suf, Bool.or_true]

theorem strContains_of_parts (x s : String) (pre suf : List Char)
    (h : x.data = pre ++ s.data ++ suf) : strContains x s = true := by
  unfold strContains
  show containsAux s.data x.data = true
  rw [h]
  exact containsAux_of_parts s.data pre suf

theorem data_append (a b : String) : (a ++ b).data = a.data ++ b.data := rfl

theorem searchPromptRows_find_none (fieldId mapped : String) :
    ∀ l, l.find? (promptRowMatches mapped) = none →
      searchPromptRows fieldId mapped l =
        { prompt := none, exampleText := none, found := false
        , error := some ("Field \"" ++ fieldId ++ "\" (mapped to \"" ++ mapped ++ "\") not found in Prompts tab") } := by
  intro l
  induction l with
  | nil => intro _; rfl
  | cons row rest ih =>
    intro h
    rw [List.find?_cons] at h
    cases hp : promptRowMatches mapped row with
    | true => rw [hp] at h; cases h
    | false =>
      rw [hp] at h
      simp only [searchPromptRows]
      unfold promptRowMatches at hp
      by_cases hlen : row.length < 2
      · rw [if_pos hlen]
        exact ih h
      · rw [if_neg hlen]
        have h2 : decide (2 ≤ row.length) = true := by
          simp only [decide_eq_true_eq]
          omega
        rw [h2, Bool.true_and] at hp
        have : ¬(strTrim (strLower (row.getD 0 "")) = strLower mapped) := by
          intro hc
          rw [decide_eq_true hc] at hp
          cases hp
        rw [if_neg this]
        exact ih h

theorem searchPromptRows_find_some (fieldId mapped : String) :
    ∀ l row, l.find? (promptRowMatches mapped) = some row →
      searchPromptRows fieldId mapped l =
        (if row.getD 1 "" = "" then
          { prompt := none, exampleText := none, found := false
          , error := some ("Field \"" ++ fieldId ++ "\" found but prompt is empty") }
        else
          { prompt := some (row.getD 1 "")
          , exampleText := if row.getD 2 "" = "" then none else some (row.getD 2 "")
          , found := true, error := none }) := by
  intro l
  induction l with
  | nil => intro row h; cases h
  | cons r rest ih =>
    intro row h
    rw [List.find?_cons] at h
    cases hp : promptRowMatches mapped r with
    | true =>
      rw [hp] at h
      have hro : r = row := by injection h
      subst hro
      unfold promptRowMatches at hp
      have hlen : ¬(r.length < 2) := by
        intro hc
        have : decide (2 ≤ r.length) = false := by
          simp only [decide_eq_false_iff_not]
          omega
        rw [this, Bool.false_and] at hp
        cases hp
      have hcell : strTrim (strLower (r.getD 0 "")) = strLower mapped := by
        by_contra hc
        rw [decide_eq_false hc, Bool.and_false] at hp
        cases hp
      simp only [searchPromptRows]
      rw [if_neg hlen, if_pos hcell]
    | false =>
      rw [hp] at h
      simp only [searchPromptRows]
      unfold promptRowMatches at hp
      by_cases hlen : r.length < 2
      · rw [if_pos hlen]
        exact ih row h
      · rw [if_neg hlen]
        have h2 : decide (2 ≤ r.length) = true := by
          simp only [decide_eq_true_eq]
          omega
        rw [h2, Bool.true_and] at hp
        have : ¬(strTrim (strLower (r.getD 0 "")) = strLower mapped) := by
          intro hc
          rw [decide_eq_true hc] at hp
          cases hp
        rw [if_neg this]
        exact ih row h

theorem searchPromptRows_found_iff (fieldId mapped : String) (l : List (List String)) :
    (searchPromptRows fieldId mapped l).found = true ↔
      ∃ row, l.find? (promptRowMatches mapped) = some row ∧ row.getD 1 "" ≠ "" := by
  cases hf : l.find? (promptRowMatches mapped) with
  | none =>
    rw [searchPromptRows_find_none fieldId mapped l hf]
    simp
  | some row =>
    rw [searchPromptRows_find_some fieldId mapped l row hf]
    by_cases hp : row.getD 1 "" = ""
    · rw [if_pos hp]
      constructor
      · intro h; cases h
      · intro h
        obtain ⟨row2, h2, hne⟩ := h
        have heq : row = row2 := by injection h2
        rw [← heq] at hne
        exact absurd hp hne
    · rw [if_neg hp]
      constructor
      · intro _; exact ⟨row, rfl, hp⟩
      · intro _; rfl

/-- Claim C8 counterexample: for `fieldId = "cost"` and a sheet whose only
non-header row is the single cell `["cost"]` — a row whose key column does
case-insensitively equal the mapped name but whose prompt cell is absent —
the resolver skips the row (rows shorter than two cells are skipped) and
returns the generic not-found error, not the distinguished
"found but prompt is empty" error the claim requires for a matching row with
an empty prompt cell. -/
theorem getPrompt_short_row_counterexample :
    getPromptFromSheets ⟨true, some "sid"⟩ "tok" "cost" [["Field", "Prompt", "Example"], ["cost"]] =
      { prompt := none, exampleText := none, found := false
      , error := some "Field \"cost\" (mapped to \"Cost\") not found in Prompts tab" } ∧
    (([["Field", "Prompt", "Example"], ["cost"]] : List (List String)).drop 1).any
      (fun r => decide (strTrim (strLower (r.getD 0 "")) = strLower (mapFieldIdPrompts "cost"))) = true ∧
    ("Field \"cost\" (mapped to \"Cost\") not found in Prompts tab" : String) ≠
      "Field \"cost\" found but prompt is empty" := by
  refine ⟨by decide, by decide, by decide⟩

/-- Claim C8 amended: the resolver returns `found = false` with a descriptive
error exactly when credentials or the sheet id are unset, the token is empty,
the tab has no rows, no non-header row **with at least two cells** matches the
mapped field name case-insensitively, or the first such matching row has an
empty prompt cell (rows with fewer than two cells are skipped entirely, so a
short matching row falls through to the generic not-found error); on a
matching row with a non-empty prompt cell it returns `found = true` with the
prompt and example verbatim; the not-found error mentions the field id. -/
theorem getPrompt_cases (env : PromptsEnv) (tok fieldId : String) (rows : List (List String)) :
    ((getPromptFromSheets env tok fieldId rows).found = true ↔
      (env.hasCreds = true ∧ env.sheetId.isSome = true ∧ tok ≠ "" ∧ rows ≠ [] ∧
        ∃ row, (rows.drop 1).find? (promptRowMatches (mapFieldIdPrompts fieldId)) = some row ∧
          row.getD 1 "" ≠ "")) ∧
    ((getPromptFromSheets env tok fieldId rows).found = false →
      ((getPromptFromSheets env tok fieldId rows).error).isSome = true) ∧
    (∀ row, (rows.drop 1).find? (promptRowMatches (mapFieldIdPrompts fieldId)) = some row →
      env.hasCreds = true → env.sheetId.isSome = true → tok ≠ "" → rows ≠ [] →
      ((row.getD 1 "" ≠ "" →
        getPromptFromSheets env tok fieldId rows =
          { prompt := some (row.getD 1 "")
          , exampleText := if row.getD 2 "" = "" then none else some (row.getD 2 "")
          , found := true, error := none }) ∧
       (row.getD 1 "" = "" →
        getPromptFromSheets env tok fieldId rows =
          { prompt := none, exampleText := none, found := false
          , error := some ("Field \"" ++ fieldId ++ "\" found but prompt is empty") }))) ∧
    ((rows.drop 1).find? (promptRowMatches (mapFieldIdPrompts fieldId)) = none →
      env.hasCreds = true → env.sheetId.isSome = true → tok ≠ "" → rows ≠ [] →
      getPromptFromSheets env tok fieldId rows =
        { prompt := none, exampleText := none, found := false
        , error := some ("Field \"" ++ fieldId ++ "\" (mapped to \"" ++ mapFieldIdPrompts fieldId ++
            "\") not found in Prompts tab") } ∧
      strContains ("Field \"" ++ fieldId ++ "\" (mapped to \"" ++ mapFieldIdPrompts fieldId ++
        "\") not found in Prompts tab") fieldId = true) := by
  obtain ⟨creds, sid⟩ := env
  cases creds with
  | false =>
    refine ⟨by simp [getPromptFromSheets], by intro _; rfl, ?_, ?_⟩
    · intro row _ hc
      cases hc
    · intro _ hc
      cases hc
  | true =>
    cases sid with
    | none =>
      refine ⟨by simp [getPromptFromSheets], by intro _; rfl, ?_, ?_⟩
      · intro row _ _ hc
        cases hc
      · intro _ _ hc
        cases hc
    | some s =>
      by_cases htok : tok = ""
      · refine ⟨?_, ?_, ?_, ?_⟩
        · simp [getPromptFromSheets, htok]
        · simp [getPromptFromSheets, htok]
        · intro row _ _ _ htok2
          exact absurd htok htok2
        · intro _ _ _ htok2
          exact absurd htok htok2
      · by_cases hrows : rows = []
        · subst hrows
          refine ⟨?_, ?_, ?_, ?_⟩
          · simp [getPromptFromSheets, htok]
          · simp [getPromptFromSheets, htok]
          · intro row _ _ _ _ hr
            exact absurd rfl hr
          · intro _ _ _ _ hr
            exact absurd rfl hr
        · have hlen : ¬(rows.length = 0) := fun hc => hrows (List.length_eq_zero.mp hc)
          have hred : getPromptFromSheets ⟨true, some s⟩ tok fieldId rows =
              searchPromptRows fieldId (mapFieldIdPrompts fieldId) (rows.drop 1) := by
            simp only [getPromptFromSheets, reduceIte]
            rw [if_neg htok, if_neg hlen]
            rfl
          rw [hred]
          refine ⟨?_, ?_, ?_, ?_⟩
          · rw [searchPromptRows_found_iff]
            constructor
            · intro h
              exact ⟨rfl, rfl, htok, hrows, h⟩
            · intro h
              exact h.2.2.2.2
          · intro hfound
            cases hf : (rows.drop 1).find? (promptRowMatches (mapFieldIdPrompts fieldId)) with
            | none =>
              rw [searchPromptRows_find_none fieldId _ _ hf]
              rfl
            | some row =>
              rw [searchPromptRows_find_some fieldId _ _ row hf]
              by_cases hp : row.getD 1 "" = ""
              · rw [if_pos hp]; rfl
              · rw [searchPromptRows_find_some fieldId _ _ row hf] at hfound
                rw [if_neg hp] at hfound
                cases hfound
          · intro row hf _ _ _ _
            constructor
            · intro hp
              rw [searchPromptRows_find_some fieldId _ _ row hf, if_neg hp]
            · intro hp
              rw [searchPromptRows_find_some fieldId _ _ row hf, if_pos hp]
          · intro hf _ _ _ _
            refine ⟨searchPromptRows_find_none fieldId _ _ hf, ?_⟩
            refine strContains_of_parts _ _ ("Field \"".data) (("\" (mapped to \"" ++ mapFieldIdPrompts fieldId ++ "\") not found in Prompts tab").data) ?_
            simp only [data_append, List.append_assoc]

/-- Witness for C8: a sheet with the header and a complete `Cost` row; the
resolver returns the prompt and example verbatim, via the matching-row branch
of the characterization. -/
theorem getPrompt_cases_witness :
    getPromptFromSheets ⟨true, some "sid"⟩ "tok" "cost"
        [["Field", "Prompt", "Example"], ["Cost", "P", "E"]] =
      { prompt := some "P", exampleText := some "E", found := true, error := none } := by
  have h := getPrompt_cases ⟨true, some "sid"⟩ "tok" "cost"
    [["Field", "Prompt", "Example"], ["Cost", "P", "E"]]
  have h2 := (h.2.2.1 ["Cost", "P", "E"] (by decide) rfl rfl (by decide) (by decide)).1 (by decide)
  rw [h2]
  decide

/-! ## Supporting lemmas: bulk prompt loader -/

theorem processRowsAux_no_pics_late (p : String) (hp : p ∈ pictureFieldIds) :
    ∀ rows i, 12 < i →
      (processRowsAux i rows).filter (fun d => decide (d.fieldId = p)) = [] := by
  intro rows
  induction rows with
  | nil => intro i _; rfl
  | cons row rest ih =>
    intro i hi
    simp only [processRowsAux]
    by_cases hskip : strTrim (row.getD 0 "") = "" ∨ strTrim (row.getD 1 "") = ""
    · rw [if_pos hskip]
      exact ih (i + 1) (by omega)
    · rw [if_neg hskip, if_neg (by omega : ¬(i + 1 = 13))]
      cases hm : mapFieldTitleToId (row.getD 0 "") (decide (i + 1 = 17)) with
      | none => exact ih (i + 1) (by omega)
      | some fid =>
        dsimp only
        by_cases hpic : pictureFieldIds.contains fid = true
        · rw [if_pos hpic]
          exact ih (i + 1) (by omega)
        · rw [if_neg hpic]
          have hne : ¬(fid = p) := by
            intro hc
            subst hc
            exact hpic (List.elem_iff.mpr hp)
          rw [List.filter_cons]
          simp only [decide_eq_true_eq]
          rw [if_neg (by simpa using hne)]
          exact ih (i + 1) (by omega)

theorem processRowsAux_pic_count (p : String) (hp : p ∈ pictureFieldIds) :
    ∀ rows i, ((processRowsAux i rows).filter (fun d => decide (d.fieldId = p))).length ≤ 1 := by
  intro rows
  induction rows with
  | nil => intro i; simp [processRowsAux]
  | cons row rest ih =>
    intro i
    simp only [processRowsAux]
    by_cases hskip : strTrim (row.getD 0 "") = "" ∨ strTrim (row.getD 1 "") = ""
    · rw [if_pos hskip]
      exact ih (i + 1)
    · rw [if_neg hskip]
      by_cases h13 : i + 1 = 13
      · rw [if_pos h13]
        rw [List.filter_append, List.length_append]
        have hrest : (processRowsAux (i + 1) rest).filter (fun d => decide (d.fieldId = p)) = [] := by
          exact processRowsAux_no_pics_late p hp rest (i + 1) (by omega)
        rw [hrest]
        have hfan : ((pictureFieldIds.map (fun q =>
            ({ fieldId := q, fieldTitle := q, prompt := strTrim (row.getD 1 "")
             , exampleText := strTrim (row.getD 2 ""), isSubtitlesOnly := false } : PromptData))).filter
            (fun d => decide (d.fieldId = p))).length ≤ 1 := by
          fin_cases hp <;> simp [pictureFieldIds, List.filter]
        simpa using hfan
      · rw [if_neg h13]
        cases hm : mapFieldTitleToId (row.getD 0 "") (decide (i + 1 = 17)) with
        | none => exact ih (i + 1)
        | some fid =>
          dsimp only
          by_cases hpic : pictureFieldIds.contains fid = true
          · rw [if_pos hpic]
            exact ih (i + 1)
          · rw [if_neg hpic]
            have hne : ¬(fid = p) := by
              intro hc
              subst hc
              exact hpic (List.elem_iff.mpr hp)
            rw [List.filter_cons]
            simp only [decide_eq_true_eq]
            rw [if_neg (by simpa using hne)]
            exact ih (i + 1)

/-- Claim C7 counterexample: two rows titled `"title"` and `"wtitle"` both
map to the fieldId `title`, and the loader pushes both, so the loaded list
holds two non-sentinel `PromptData` entries for one fieldId. -/
theorem prompts_duplicate_fieldId_counterexample :
    ((getPromptsFromSheet [["title", "p", ""], ["wtitle", "q", ""]]).filter
      (fun d => decide (d.fieldId = "title") && !d.isSubtitlesOnly)).length = 2 := by
  decide

/-- Claim C7 amended: after the row-13 fan-out (which skips individually
mapped picture rows) each of the four picture fieldIds has at most one
`PromptData` entry; for non-picture fieldIds the loader performs no
deduplication, so several sheet titles mapping to the same fieldId (such as
`title` and `wtitle`) produce several non-sentinel entries. -/
theorem prompts_picture_fields_unique (rows : List (List String)) (p : String)
    (hp : p ∈ pictureFieldIds) :
    ((getPromptsFromSheet rows).filter (fun d => decide (d.fieldId = p))).length ≤ 1 := by
  unfold getPromptsFromSheet
  exact processRowsAux_pic_count p hp rows 0

/-- Witness for C7: a sheet whose row 13 carries the shared picture prompt
yields exactly one `pic1` entry, within the bound of the theorem. -/
theorem prompts_picture_fields_unique_witness :
    ((getPromptsFromSheet [["x", "p", ""], ["", "", ""], ["", "", ""], ["", "", ""], ["", "", ""],
        ["", "", ""], ["", "", ""], ["", "", ""], ["", "", ""], ["", "", ""], ["", "", ""],
        ["", "", ""], ["pics", "shared", ""]]).filter
      (fun d => decide (d.fieldId = "pic1"))).length ≤ 1 := by
  exact prompts_picture_fields_unique _ "pic1" (by decide)

/-! ## Supporting lemmas: picture-batch selection -/

theorem nodup_append_single (d : Nat) :
    ∀ acc : List Nat, acc.Nodup → d ∉ acc → (acc ++ [d]).Nodup := by
  intro acc
  induction acc with
  | nil => intro _ _; simp
  | cons a rest ih =>
    intro hnd hmem
    rw [List.cons_append]
    refine List.Nodup.cons ?_ (ih (List.Nodup.of_cons hnd) (fun hc => hmem (List.mem_cons_of_mem a hc)))
    intro hc
    rcases List.mem_append.mp hc with hc | hc
    · exact (List.nodup_cons.mp hnd).1 hc
    · rw [List.mem_singleton.mp hc] at hmem
      exact hmem (List.mem_cons_self _ _)

theorem selectIndices_spec (n : Nat) (hn : 4 ≤ n) :
    ∀ draws acc res, (∀ d ∈ draws, d < min n 13) → acc.Nodup →
      (∀ j ∈ acc, j < min n 13) → acc.length ≤ 4 →
      selectIndices n draws acc = some res →
      res.length = 4 ∧ res.Nodup ∧ ∀ j ∈ res, j < min n 13 := by
  intro draws
  induction draws with
  | nil =>
    intro acc res _ hnd hb hlen h
    simp only [selectIndices] at h
    by_cases hc : 4 ≤ acc.length ∨ n ≤ acc.length
    · rw [if_pos hc] at h
      cases h
      refine ⟨?_, hnd, hb⟩
      rcases hc with hc | hc
      · omega
      · omega
    · rw [if_neg hc] at h
      cases h
  | cons d rest ih =>
    intro acc res hdraws hnd hb hlen h
    have hd := hdraws d (List.mem_cons_self d rest)
    have hdrest := fun x hx => hdraws x (List.mem_cons_of_mem d hx)
    simp only [selectIndices] at h
    by_cases hc : 4 ≤ acc.length ∨ n ≤ acc.length
    · rw [if_pos hc] at h
      cases h
      refine ⟨?_, hnd, hb⟩
      rcases hc with hc | hc
      · omega
      · omega
    · rw [if_neg hc] at h
      by_cases hmem : d ∈ acc
      · rw [if_pos hmem] at h
        exact ih acc res hdrest hnd hb hlen h
      · rw [if_neg hmem] at h
        refine ih (acc ++ [d]) res hdrest (nodup_append_single d acc hnd hmem) ?_ ?_ h
        · intro j hj
          rcases List.mem_append.mp hj with hj | hj
          · exact hb j hj
          · rw [List.mem_singleton.mp hj]
            exact hd
        · rw [List.length_append]
          simp only [List.length_singleton]
          omega

/-- Claim C6: whenever the parser recovered at least 4 combinations, the
selection step (modelled over any stream of drawn indices, each below
`min(n, 13)` as `Math.floor(Math.random() * Math.min(n, 13))` guarantees)
returns exactly 4 pairwise-distinct indices, each below `min(n, 13)`, mapped
to `pic1..pic4`; with fewer than 4 combinations the route fails with an
explicit error instead of returning outputs. -/
theorem pictures_select_spec (combos : List (String × String)) (draws : List Nat)
    (hdraws : ∀ d ∈ draws, d < min combos.length 13) :
    (combos.length < 4 → picturesSelect combos draws =
      some (Except.error ("Only found " ++ toString combos.length ++
        " combinations. Need at least 4. Response may not be in expected format."))) ∧
    (∀ idxs outs, picturesSelect combos draws = some (Except.ok (idxs, outs)) →
      idxs.length = 4 ∧ idxs.Nodup ∧ (∀ j ∈ idxs, j < min combos.length 13) ∧
      outs.map Prod.fst = ["pic1", "pic2", "pic3", "pic4"]) := by
  by_cases hlt : combos.length < 4
  · constructor
    · intro _
      unfold picturesSelect
      rw [if_pos hlt]
    · intro idxs outs h
      unfold picturesSelect at h
      rw [if_pos hlt] at h
      cases h
  · constructor
    · intro hc
      exact absurd hc hlt
    · intro idxs outs h
      unfold picturesSelect at h
      rw [if_neg hlt] at h
      cases hm : selectIndices combos.length draws [] with
      | none => rw [hm] at h; cases h
      | some idxs0 =>
        rw [hm] at h
        have hspec := selectIndices_spec combos.length (by omega) draws [] idxs0 hdraws
          List.nodup_nil (by intro j hj; cases hj) (by simp) hm
        dsimp only at h
        simp only [Option.some.injEq, Except.ok.injEq, Prod.mk.injEq] at h
        obtain ⟨h1, h2⟩ := h
        subst h1
        subst h2
        exact ⟨hspec.1, hspec.2.1, hspec.2.2, rfl⟩

/-- Witness for C6: four combinations and the draw stream `[0, 1, 2, 3]`
produce the selection `[0, 1, 2, 3]`, which the theorem certifies to be 4
distinct in-range indices mapped to `pic1..pic4`. -/
theorem pictures_select_spec_witness :
    picturesSelect [("t1", "s1"), ("t2", "s2"), ("t3", "s3"), ("t4", "s4")] [0, 1, 2, 3] =
      some (Except.ok ([0, 1, 2, 3],
        [("pic1", "T1\ns1"), ("pic2", "T2\ns2"), ("pic3", "T3\ns3"), ("pic4", "T4\ns4")])) ∧
    ([0, 1, 2, 3] : List Nat).length = 4 ∧ ([0, 1, 2, 3] : List Nat).Nodup ∧
    (∀ j ∈ ([0, 1, 2, 3] : List Nat), j <
      min ([("t1", "s1"), ("t2", "s2"), ("t3", "s3"), ("t4", "s4")] : List (String × String)).length 13) := by
  have h := pictures_select_spec [("t1", "s1"), ("t2", "s2"), ("t3", "s3"), ("t4", "s4")]
    [0, 1, 2, 3] (by decide)
  have h2 := h.2 [0, 1, 2, 3]
    [("pic1", "T1\ns1"), ("pic2", "T2\ns2"), ("pic3", "T3\ns3"), ("pic4", "T4\ns4")] rfl
  exact ⟨rfl, h2.1, h2.2.1, h2.2.2.1⟩

/-! ## Supporting lemmas: title casing -/

theorem splitOnCharAux_occurs (sep : Char) :
    ∀ cs cur w, w ∈ splitOnCharAux sep cur cs →
      ∃ pre suf, cur.reverse ++ cs = pre ++ w ++ suf := by
  intro cs
  induction cs with
  | nil =>
    intro cur w hw
    simp only [splitOnCharAux, List.mem_singleton] at hw
    subst hw
    exact ⟨[], [], by simp⟩
  | cons c t ih =>
    intro cur w hw
    simp only [splitOnCharAux] at hw
    by_cases hc : c = sep
    · rw [if_pos hc] at hw
      rcases List.mem_cons.mp hw with hw | hw
      · subst hw
        exact ⟨[], c :: t, by simp⟩
      · obtain ⟨pre, suf, hps⟩ := ih [] w hw
        simp only [List.reverse_nil, List.nil_append] at hps
        refine ⟨cur.reverse ++ [c] ++ pre, suf, ?_⟩
        rw [show cur.reverse ++ (c :: t) = (cur.reverse ++ [c]) ++ t by simp, hps]
        simp
    · rw [if_neg hc] at hw
      obtain ⟨pre, suf, hps⟩ := ih (c :: cur) w hw
      rw [List.reverse_cons] at hps
      refine ⟨pre, suf, ?_⟩
      rw [show cur.reverse ++ (c :: t) = (cur.reverse ++ [c]) ++ t by simp, hps]

theorem idxOf_isSome_of_parts (w : List Char) :
    ∀ pre suf l, l = pre ++ w ++ suf → (idxOf w l).isSome = true := by
  intro pre
  induction pre with
  | nil =>
    intro suf l hl
    simp only [List.nil_append] at hl
    have hpre : w.isPrefixOf l = true := by
      rw [List.isPrefixOf_iff_prefix, hl]
      exact List.prefix_append _ _
    cases l with
    | nil => simp [idxOf, hpre]
    | cons c t => simp [idxOf, hpre]
  | cons p ps ih =>
    intro suf l hl
    rw [show (p :: ps) ++ w ++ suf = p :: (ps ++ w ++ suf) by simp] at hl
    subst hl
    simp only [idxOf]
    by_cases hpre : w.isPrefixOf (p :: (ps ++ w ++ suf)) = true
    · rw [if_pos hpre]
      rfl
    · rw [if_neg hpre]
      have := ih suf (ps ++ w ++ suf) rfl
      cases hi : idxOf w (ps ++ w ++ suf) with
      | none => rw [hi] at this; cases this
      | some i => simp [hi]

theorem idxOf_eq_zero_iff (w l : List Char) :
    idxOf w l = some 0 ↔ w.isPrefixOf l = true := by
  cases l with
  | nil =>
    simp only [idxOf]
    by_cases hpre : w.isPrefixOf ([] : List Char) = true
    · simp [hpre]
    · simp [hpre]
  | cons c t =>
    simp only [idxOf]
    by_cases hpre : w.isPrefixOf (c :: t) = true
    · simp [hpre]
    · rw [if_neg hpre]
      constructor
      · intro hc
        obtain ⟨i, _, hadd⟩ := Option.map_eq_some'.mp hc
        omega
      · intro hc
        exact absurd hc hpre

theorem jsIndexOfPos_eq (content w : String)
    (hocc : ∃ pre suf, content.data = pre ++ w.data ++ suf) :
    jsIndexOfPos content w = !(w.toList.isPrefixOf content.toList) := by
  obtain ⟨pre, suf, hps⟩ := hocc
  unfold jsIndexOfPos
  by_cases hpre : w.toList.isPrefixOf content.toList = true
  · have h0 : idxOf w.toList content.toList = some 0 := (idxOf_eq_zero_iff _ _).mpr hpre
    rw [h0, hpre]
    rfl
  · have hsome : (idxOf w.toList content.toList).isSome = true :=
      idxOf_isSome_of_parts w.toList pre suf content.toList hps
    have hpref : w.toList.isPrefixOf content.toList = false := Bool.eq_false_iff.mpr hpre
    cases hi : idxOf w.toList content.toList with
    | none => rw [hi] at hsome; cases hsome
    | some i =>
      have hne : i ≠ 0 := by
        intro hc
        subst hc
        exact hpre ((idxOf_eq_zero_iff _ _).mp hi)
      rw [hpref]
      show decide (0 < i) = true
      simp only [decide_eq_true_eq]
      omega

theorem splitWords_occurs (s w : String) (hw : w ∈ splitWords s) :
    ∃ pre suf, s.data = pre ++ w.data ++ suf := by
  unfold splitWords at hw
  obtain ⟨g, hg, hgw⟩ := List.mem_map.mp hw
  obtain ⟨pre, suf, hps⟩ := splitOnCharAux_occurs ' ' s.toList [] g hg
  simp only [List.reverse_nil, List.nil_append] at hps
  refine ⟨pre, suf, ?_⟩
  rw [← hgw]
  exact hps

/-- Claim C4 counterexample: on `"a a"` the title-caser outputs `"A A"` — the
second occurrence of the small word `a` is capitalized although it is not the
first word, because the code's test `content.indexOf(word) > 0` sees the
first word's occurrence at position 0. -/
theorem titleCaseBox_counterexample :
    titleCaseBox "a a" = "A A" ∧ titleCaseBox "a a" ≠ "A a" := by
  exact ⟨by decide, by decide⟩

/-- Claim C4 amended: the small-word lowercasing of the title-caser triggers
not when the word is a non-first word, but when the word's first occurrence
as a *substring* of the whole pre-casing string is at a position greater than
0 — equivalently, exactly when the word is not a prefix of the string; all
other words get their first letter capitalized and the rest lowercased, and
the very first character of the result is then forced to uppercase. -/
theorem titleCaseBox_small_word_rule (content : String) :
    titleCaseBox content =
      (let mapped := (splitWords content).map (fun word =>
        if smallWords.contains (strLower word) && !(word.toList.isPrefixOf content.toList)
        then strLower word else capWord word)
       let c := joinWords mapped
       if 0 < c.length then forceUpperFirst c else c) := by
  have hmap : (splitWords content).map (fun word =>
      if smallWords.contains (strLower word) && jsIndexOfPos content word then strLower word
      else capWord word) =
    (splitWords content).map (fun word =>
      if smallWords.contains (strLower word) && !(word.toList.isPrefixOf content.toList)
      then strLower word else capWord word) := by
    apply List.map_eq_map_iff.mpr
    intro w hw
    rw [jsIndexOfPos_eq content w (splitWords_occurs content w hw)]
  simp only [titleCaseBox]
  rw [hmap]

theorem enumFrom_map_snd {α β : Type} (f : α → β) :
    ∀ (l : List α) (n : Nat), (List.enumFrom n l).map (fun iw => f iw.2) = l.map f := by
  intro l
  induction l with
  | nil => intro n; rfl
  | cons a rest ih =>
    intro n
    simp only [List.enumFrom, List.map_cons, ih]

/-- Claim C10 counterexample: the single-field title-caser and the
picture-batch title-caser disagree on `"a a"` — the former capitalizes the
second `a` (substring test), the latter lowercases it (word-index test). -/
theorem titleCase_box_pics_counterexample :
    titleCaseBox "a a" ≠ titleCasePics "a a" := by decide

/-- Sufficiency half of the title-casing characterization: when the two
small-word triggers (`content.indexOf(word) > 0` against the word position
`index > 0`) coincide for every small word, index by index, the two
title-casers give the same output. -/
theorem titleCase_box_pics_agree (content : String)
    (h : ∀ iw ∈ (splitWords content).enum, smallWords.contains (strLower iw.2) = true →
      jsIndexOfPos content iw.2 = decide (0 < iw.1)) :
    titleCaseBox content = titleCasePics content := by
  have hbox : (splitWords content).map (fun word =>
      if smallWords.contains (strLower word) && jsIndexOfPos content word then strLower word
      else capWord word) =
    (splitWords content).enum.map (fun iw =>
      if smallWords.contains (strLower iw.2) && jsIndexOfPos content iw.2 then strLower iw.2
      else capWord iw.2) :=
    (enumFrom_map_snd (fun word =>
      if smallWords.contains (strLower word) && jsIndexOfPos content word then strLower word
      else capWord word) (splitWords content) 0).symm
  have hmap : (splitWords content).enum.map (fun iw =>
      if smallWords.contains (strLower iw.2) && jsIndexOfPos content iw.2 then strLower iw.2
      else capWord iw.2) =
    (splitWords content).enum.map (fun iw =>
      if smallWords.contains (strLower iw.2) && decide (0 < iw.1) then strLower iw.2
      else capWord iw.2) := by
    apply List.map_eq_map_iff.mpr
    intro iw hiw
    by_cases hs : smallWords.contains (strLower iw.2) = true
    · rw [h iw hiw hs]
    · have hsf : smallWords.contains (strLower iw.2) = false := Bool.eq_false_iff.mpr hs
      rw [hsf]
      simp
  simp only [titleCaseBox, titleCasePics]
  rw [hbox, hmap]

/-! ## Supporting lemmas: title casing, converse direction -/

/-- Round trip of `Char.ofNat` on a valid code point. -/
theorem char_toNat_ofNat (n : Nat) (h : n.isValidChar) : (Char.ofNat n).toNat = n := by
  simp [Char.ofNat, h, Char.ofNatAux, Char.toNat, UInt32.toNat, BitVec.toNat_ofNatLt]

/-- Code-point arithmetic of `Char.toLower`. -/
theorem toLower_toNat (c : Char) :
    (Char.toLower c).toNat = if 65 ≤ c.toNat ∧ c.toNat ≤ 90 then c.toNat + 32 else c.toNat := by
  simp only [Char.toLower]
  by_cases h : 65 ≤ c.toNat ∧ c.toNat ≤ 90
  · rw [if_pos h, if_pos h]
    exact char_toNat_ofNat _ (Or.inl (by omega))
  · rw [if_neg h, if_neg h]

/-- Code-point arithmetic of `Char.toUpper`. -/
theorem toUpper_toNat (c : Char) :
    (Char.toUpper c).toNat = if 97 ≤ c.toNat ∧ c.toNat ≤ 122 then c.toNat - 32 else c.toNat := by
  simp only [Char.toUpper]
  by_cases h : 97 ≤ c.toNat ∧ c.toNat ≤ 122
  · rw [if_pos h, if_pos h]
    exact char_toNat_ofNat _ (Or.inl (by omega))
  · rw [if_neg h, if_neg h]

/-- Upper- and lowercasing a character disagree whenever the lowercased
character is an ASCII lowercase letter. -/
theorem toUpper_ne_toLower (c : Char) (h1 : 97 ≤ (Char.toLower c).toNat)
    (h2 : (Char.toLower c).toNat ≤ 122) : Char.toUpper c ≠ Char.toLower c := by
  intro heq
  have h3 := congrArg Char.toNat heq
  rw [toUpper_toNat, toLower_toNat] at h3
  rw [toLower_toNat] at h1 h2
  by_cases hu : 65 ≤ c.toNat ∧ c.toNat ≤ 90
  · rw [if_pos hu] at h3
    rw [if_neg (by omega)] at h3
    omega
  · rw [if_neg hu] at h1 h2 h3
    rw [if_pos (by omega)] at h3
    omega

/-- Every entry of the small-word list is nonempty and starts with an ASCII
lowercase letter. -/
theorem smallWords_head_lower :
    ∀ s ∈ smallWords, s.data ≠ [] ∧
      97 ≤ (s.data.headD 'z').toNat ∧ (s.data.headD 'z').toNat ≤ 122 := by
  decide

/-- When the lowercased word is a small word, lowercasing and capitalizing
the word give different strings: their first characters differ. -/
theorem strLower_ne_capWord (w : String) (h : smallWords.contains (strLower w) = true) :
    strLower w ≠ capWord w := by
  have hmem : strLower w ∈ smallWords := List.elem_iff.mp h
  have hbounds := smallWords_head_lower (strLower w) hmem
  cases hw : w.data with
  | nil =>
    have hempty : (strLower w).data = [] := by
      show w.data.map Char.toLower = []
      rw [hw]
      rfl
    exact absurd hempty hbounds.1
  | cons c rest =>
    have hd : (strLower w).data = Char.toLower c :: rest.map Char.toLower := by
      show w.data.map Char.toLower = _
      rw [hw]
      rfl
    have hwl : w.toList = c :: rest := hw
    have hcap : (capWord w).data = Char.toUpper c :: rest.map Char.toLower := by
      simp only [capWord, hwl]
    rw [hd] at hbounds
    simp only [List.headD_cons] at hbounds
    intro heq
    have hdata := congrArg String.data heq
    rw [hd, hcap] at hdata
    have hhead : Char.toLower c = Char.toUpper c := by injection hdata
    exact toUpper_ne_toLower c hbounds.2.1 hbounds.2.2 hhead.symm

/-- Lowercasing a word keeps its length. -/
theorem strLower_length (w : String) : (strLower w).toList.length = w.toList.length := by
  show (w.data.map Char.toLower).length = w.data.length
  rw [List.length_map]

/-- Capitalizing a word keeps its length. -/
theorem capWord_length (w : String) : (capWord w).toList.length = w.toList.length := by
  show (capWord w).data.length = w.data.length
  cases hw : w.data with
  | nil => simp [capWord, hw]
  | cons c rest => simp [capWord, hw]

/-- The first segment produced by the splitting scanner is the accumulator
followed by the characters before the first separator. -/
theorem splitOnCharAux_head (sep : Char) :
    ∀ cs cur, (splitOnCharAux sep cur cs).head? =
      some (cur.reverse ++ cs.takeWhile (fun c => decide (¬(c = sep)))) := by
  intro cs
  induction cs with
  | nil => intro cur; simp [splitOnCharAux]
  | cons c t ih =>
    intro cur
    by_cases hc : c = sep
    · simp [splitOnCharAux, hc]
    · simp only [splitOnCharAux, if_neg hc]
      rw [ih (c :: cur)]
      simp [hc]

/-- Splitting on spaces never returns an empty list. -/
theorem splitWords_ne_nil (s : String) : splitWords s ≠ [] := by
  intro h
  unfold splitWords at h
  have h2 := congrArg List.head? h
  rw [List.head?_map, splitOnCharAux_head ' ' s.toList []] at h2
  simp at h2

/-- The first word of the space-split is a prefix of the whole string. -/
theorem splitWords_head_prefix (content w0 : String) (t : List String)
    (hsw : splitWords content = w0 :: t) : w0.toList.isPrefixOf content.toList = true := by
  have h1 : (splitWords content).head? = some w0 := by rw [hsw]; rfl
  unfold splitWords at h1
  rw [List.head?_map, splitOnCharAux_head ' ' content.toList []] at h1
  simp only [List.reverse_nil, List.nil_append, Option.map_some'] at h1
  injection h1 with h1
  have hw0 : w0.toList = content.toList.takeWhile (fun c => decide (¬(c = ' '))) := by
    rw [← h1]
    rfl
  rw [List.isPrefixOf_iff_prefix, hw0]
  exact List.takeWhile_prefix _

/-- The substring trigger is always false at a word that is a prefix of the
whole string, in particular at the first word. -/
theorem jsIndexOfPos_head_false (content w0 : String)
    (hpre : w0.toList.isPrefixOf content.toList = true) : jsIndexOfPos content w0 = false := by
  unfold jsIndexOfPos
  rw [(idxOf_eq_zero_iff w0.toList content.toList).mpr hpre]
  rfl

/-- Unfolding of `List.intercalate` at a cons cell. -/
theorem intercalate_cons_eq (x : List Char) (t : List (List Char)) :
    List.intercalate [' '] (x :: t) =
      x ++ (match t with | [] => [] | _ :: _ => ' ' :: List.intercalate [' '] t) := by
  cases t with
  | nil => simp [List.intercalate]
  | cons y t2 => simp [List.intercalate]

/-- Joining segment lists of equal shapes gives equal lengths. -/
theorem intercalate_length_eq :
    ∀ L1 L2 : List (List Char), L1.map List.length = L2.map List.length →
      (List.intercalate [' '] L1).length = (List.intercalate [' '] L2).length := by
  intro L1
  induction L1 with
  | nil =>
    intro L2 h
    cases L2 with
    | nil => rfl
    | cons y t2 => simp at h
  | cons x t1 ih =>
    intro L2 h
    cases L2 with
    | nil => simp at h
    | cons y t2 =>
      simp only [List.map_cons, List.cons.injEq] at h
      rw [intercalate_cons_eq, intercalate_cons_eq]
      cases t1 with
      | nil =>
        cases t2 with
        | nil => simp [h.1]
        | cons z t3 => simp at h
      | cons x2 t1b =>
        cases t2 with
        | nil => simp at h
        | cons y2 t2b =>
          have hrec := ih (y2 :: t2b) h.2
          simp [h.1, hrec]

/-- Joining is injective on segment lists of equal shapes. -/
theorem intercalate_inj :
    ∀ L1 L2 : List (List Char), L1.map List.length = L2.map List.length →
      List.intercalate [' '] L1 = List.intercalate [' '] L2 → L1 = L2 := by
  intro L1
  induction L1 with
  | nil =>
    intro L2 h _
    cases L2 with
    | nil => rfl
    | cons y t2 => simp at h
  | cons x t1 ih =>
    intro L2 h heq
    cases L2 with
    | nil => simp at h
    | cons y t2 =>
      simp only [List.map_cons, List.cons.injEq] at h
      rw [intercalate_cons_eq, intercalate_cons_eq] at heq
      have hparts := List.append_inj heq h.1
      cases t1 with
      | nil =>
        cases t2 with
        | nil => rw [hparts.1]
        | cons z t3 => simp at h
      | cons x2 t1b =>
        cases t2 with
        | nil => simp at h
        | cons y2 t2b =>
          have htail : List.intercalate [' '] (x2 :: t1b) = List.intercalate [' '] (y2 :: t2b) := by
            have := hparts.2
            injection this
          rw [hparts.1, ih (y2 :: t2b) h.2 htail]

/-- Joined lists with the same first segment and shape-equal tails have the
same first character. -/
theorem intercalate_head_congr (x : List Char) (t1 t2 : List (List Char))
    (hsh : t1.map List.length = t2.map List.length) :
    (List.intercalate [' '] (x :: t1)).head? = (List.intercalate [' '] (x :: t2)).head? := by
  rw [intercalate_cons_eq, intercalate_cons_eq]
  cases x with
  | cons c xs => simp
  | nil =>
    cases t1 with
    | nil =>
      cases t2 with
      | nil => rfl
      | cons b t2b => simp at hsh
    | cons a t1b =>
      cases t2 with
      | nil => simp at hsh
      | cons b t2b => simp

/-- Forcing the first character to uppercase is injective on lists of equal
length with equal first characters. -/
theorem forceUpperFirst_inj (x y : List Char) (hlen : x.length = y.length)
    (hhead : x.head? = y.head?)
    (hf : forceUpperFirst (String.mk x) = forceUpperFirst (String.mk y)) : x = y := by
  cases x with
  | nil =>
    cases y with
    | nil => rfl
    | cons d ys => simp at hlen
  | cons cx xs =>
    cases y with
    | nil => simp at hlen
    | cons cy ys =>
      have hc : cx = cy := by simpa using hhead
      have hf2 : String.mk (Char.toUpper cx :: xs) = String.mk (Char.toUpper cy :: ys) := hf
      have hdata := congrArg String.data hf2
      injection hdata with h1 h2
      rw [hc, h2]

/-- The two per-word maps produce segment lists of the same shape whenever
both preserve word lengths. -/
theorem pipeline_shape (f : String → String) (g : Nat × String → String)
    (hflen : ∀ w, (f w).toList.length = w.toList.length)
    (hglen : ∀ iw, (g iw).toList.length = iw.2.toList.length) :
    ∀ (l : List String) (n : Nat),
      ((l.map f).map String.toList).map List.length
        = (((List.enumFrom n l).map g).map String.toList).map List.length := by
  intro l
  induction l with
  | nil => intro n; rfl
  | cons a rest ih =>
    intro n
    simp only [List.enumFrom, List.map_cons]
    rw [hflen a, hglen (n, a), ih (n + 1)]

/-- When the join-then-force pipeline gives equal outputs for a plain
per-word map and an indexed per-word map that preserve word lengths and
agree on the first word, the two maps agree on every indexed word. -/
theorem mapped_pointwise_of_pipeline_eq (ws : List String) (f : String → String)
    (g : Nat × String → String)
    (hflen : ∀ w, (f w).toList.length = w.toList.length)
    (hglen : ∀ iw, (g iw).toList.length = iw.2.toList.length)
    (hhead0 : ∀ w0 t, ws = w0 :: t → f w0 = g (0, w0))
    (hne : ws ≠ [])
    (heq : (if 0 < (joinWords (ws.map f)).length then forceUpperFirst (joinWords (ws.map f))
              else joinWords (ws.map f)) =
           (if 0 < (joinWords (ws.enum.map g)).length then forceUpperFirst (joinWords (ws.enum.map g))
              else joinWords (ws.enum.map g))) :
    ∀ iw ∈ ws.enum, f iw.2 = g iw := by
  obtain ⟨w0, t, rfl⟩ : ∃ w0 t, ws = w0 :: t := by
    cases ws with
    | nil => exact absurd rfl hne
    | cons a b => exact ⟨a, b, rfl⟩
  have hshape : (((w0 :: t).map f).map String.toList).map List.length
      = ((((w0 :: t).enum).map g).map String.toList).map List.length :=
    pipeline_shape f g hflen hglen (w0 :: t) 0
  have hlen12 : (List.intercalate [' '] (((w0 :: t).map f).map String.toList)).length
      = (List.intercalate [' '] ((((w0 :: t).enum).map g).map String.toList)).length :=
    intercalate_length_eq _ _ hshape
  have hfg0 : f w0 = g (0, w0) := hhead0 w0 t rfl
  have hL1 : ((w0 :: t).map f).map String.toList
      = (f w0).toList :: ((t.map f).map String.toList) := rfl
  have hL2 : (((w0 :: t).enum).map g).map String.toList
      = (g (0, w0)).toList :: (((List.enumFrom 1 t).map g).map String.toList) := rfl
  have hjoin : List.intercalate [' '] (((w0 :: t).map f).map String.toList)
      = List.intercalate [' '] ((((w0 :: t).enum).map g).map String.toList) := by
    by_cases hpos : 0 < (List.intercalate [' '] (((w0 :: t).map f).map String.toList)).length
    · have hpos2 : 0 < (List.intercalate [' '] ((((w0 :: t).enum).map g).map String.toList)).length := by
        rw [← hlen12]
        exact hpos
      have hpos1' : 0 < (String.mk (List.intercalate [' '] (((w0 :: t).map f).map String.toList))).length := hpos
      have hpos2' : 0 < (String.mk (List.intercalate [' '] ((((w0 :: t).enum).map g).map String.toList))).length := hpos2
      have heq2 : forceUpperFirst (String.mk (List.intercalate [' '] (((w0 :: t).map f).map String.toList)))
          = forceUpperFirst (String.mk (List.intercalate [' '] ((((w0 :: t).enum).map g).map String.toList))) := by
        have e1 : joinWords ((w0 :: t).map f)
            = String.mk (List.intercalate [' '] (((w0 :: t).map f).map String.toList)) := rfl
        have e2 : joinWords (((w0 :: t).enum).map g)
            = String.mk (List.intercalate [' '] ((((w0 :: t).enum).map g).map String.toList)) := rfl
        rw [e1, e2] at heq
        rw [if_pos hpos1', if_pos hpos2'] at heq
        exact heq
      have hheads : (List.intercalate [' '] (((w0 :: t).map f).map String.toList)).head?
          = (List.intercalate [' '] ((((w0 :: t).enum).map g).map String.toList)).head? := by
        rw [hL1, hL2, ← hfg0]
        apply intercalate_head_congr
        have hsh2 := hshape
        rw [hL1, hL2] at hsh2
        simp only [List.map_cons, List.cons.injEq] at hsh2
        exact hsh2.2
      exact forceUpperFirst_inj _ _ hlen12 hheads heq2
    · have h0 : (List.intercalate [' '] (((w0 :: t).map f).map String.toList)).length = 0 := by
        omega
      have h0' : (List.intercalate [' '] ((((w0 :: t).enum).map g).map String.toList)).length = 0 := by
        rw [← hlen12]
        exact h0
      rw [List.length_eq_zero.mp h0, List.length_eq_zero.mp h0']
  have hLL := intercalate_inj _ _ hshape hjoin
  have hinj : Function.Injective String.toList := by
    intro a b hab
    have hmk : String.mk a.toList = String.mk b.toList := congrArg String.mk hab
    exact hmk
  have hmaps : (w0 :: t).map f = ((w0 :: t).enum).map g :=
    List.map_injective_iff.mpr hinj hLL
  have hmaps2 : (List.enumFrom 0 (w0 :: t)).map (fun iw => f iw.2)
      = (List.enumFrom 0 (w0 :: t)).map g := by
    rw [enumFrom_map_snd f (w0 :: t) 0]
    exact hmaps
  intro iw hiw
  exact List.map_eq_map_iff.mp hmaps2 iw hiw

/-- Necessity half of the title-casing characterization: equal outputs of
the two title-casers force the two small-word triggers to coincide for
every small word of the input, index by index. -/
theorem titleCase_triggers_of_agree (content : String)
    (heq : titleCaseBox content = titleCasePics content) :
    ∀ iw ∈ (splitWords content).enum, smallWords.contains (strLower iw.2) = true →
      jsIndexOfPos content iw.2 = decide (0 < iw.1) := by
  have hpoint : ∀ iw ∈ (splitWords content).enum,
      (fun word => if smallWords.contains (strLower word) && jsIndexOfPos content word then strLower word
        else capWord word) iw.2
      = (fun iw : Nat × String =>
          if smallWords.contains (strLower iw.2) && decide (0 < iw.1) then strLower iw.2
          else capWord iw.2) iw := by
    refine mapped_pointwise_of_pipeline_eq (splitWords content)
      (fun word => if smallWords.contains (strLower word) && jsIndexOfPos content word then strLower word
        else capWord word)
      (fun iw : Nat × String =>
        if smallWords.contains (strLower iw.2) && decide (0 < iw.1) then strLower iw.2
        else capWord iw.2) ?_ ?_ ?_ ?_ ?_
    · intro w
      by_cases hs : (smallWords.contains (strLower w) && jsIndexOfPos content w) = true
      · simp only [hs, if_pos]
        exact strLower_length w
      · simp only [if_neg hs]
        exact capWord_length w
    · intro iw
      by_cases hs : (smallWords.contains (strLower iw.2) && decide (0 < iw.1)) = true
      · simp only [hs, if_pos]
        exact strLower_length iw.2
      · simp only [if_neg hs]
        exact capWord_length iw.2
    · intro w0 t hsw
      have hpre := splitWords_head_prefix content w0 t hsw
      have hidx := jsIndexOfPos_head_false content w0 hpre
      simp [hidx]
    · exact splitWords_ne_nil content
    · exact heq
  intro iw hiw hsmall
  have h := hpoint iw hiw
  simp only [hsmall, Bool.true_and] at h
  by_contra hne
  cases hb : jsIndexOfPos content iw.2 <;> cases hp : decide (0 < iw.1)
  · rw [hb, hp] at hne
    exact hne rfl
  · rw [hb, hp] at h
    simp only [Bool.false_eq_true, if_false, if_true, reduceIte] at h
    exact strLower_ne_capWord iw.2 hsmall h.symm
  · rw [hb, hp] at h
    simp only [Bool.false_eq_true, if_false, if_true, reduceIte] at h
    exact strLower_ne_capWord iw.2 hsmall h
  · rw [hb, hp] at hne
    exact hne rfl

/-- Claim C10 amended: the two title-casing passes share the small-word
list, the capitalization of other words, and the forced-uppercase first
character, but differ in the small-word trigger (substring position against
word index); they agree exactly, if and only if, the two triggers coincide
for every small word of the input, index by index. -/
theorem titleCase_box_pics_agree_iff (content : String) :
    titleCaseBox content = titleCasePics content ↔
      (∀ iw ∈ (splitWords content).enum, smallWords.contains (strLower iw.2) = true →
        jsIndexOfPos content iw.2 = decide (0 < iw.1)) :=
  ⟨titleCase_triggers_of_agree content, titleCase_box_pics_agree content⟩

/-- Witness for C10: on a concrete input where the triggers coincide, the
equivalence yields equal outputs of the two title-casers. -/
theorem titleCase_box_pics_agree_iff_witness :
    titleCaseBox "Removal of Mattresses" = titleCasePics "Removal of Mattresses" :=
  (titleCase_box_pics_agree_iff "Removal of Mattresses").mpr (by decide)

/-! ## Supporting lemmas: keyword substitution -/

theorem replaceScanF_id_of_no_match (eq : Char → Char → Bool) (p0 : Char) (ps repl : List Char) :
    ∀ cs, scanHas eq p0 ps cs = false → ∀ fuel, replaceScanF eq p0 ps repl fuel cs = cs := by
  intro cs
  induction cs with
  | nil =>
    intro _ fuel
    cases fuel <;> rfl
  | cons c cs ih =>
    intro h fuel
    simp only [scanHas, Bool.or_eq_false_iff, Bool.and_eq_false_iff] at h
    cases fuel with
    | zero => rfl
    | succ f =>
      simp only [replaceScanF]
      by_cases hc : eq p0 c = true
      · rw [if_pos hc]
        rcases h.1 with h1 | h1
        · rw [hc] at h1; cases h1
        · cases hm : matchPrefix eq ps cs with
          | some r =>
            rw [hm] at h1
            cases h1
          | none =>
            rw [ih h.2 f]
      · rw [if_neg hc]
        rw [ih h.2 f]

theorem replWordF_id_of_no_match (kw : List Char) :
    ∀ cs prevW, hasWordAux prevW cs = false → ∀ fuel, replWordF kw fuel prevW cs = cs := by
  intro cs
  induction cs with
  | nil =>
    intro _ _ fuel
    cases fuel <;> rfl
  | cons c cs ih =>
    intro prevW h fuel
    simp only [hasWordAux, Bool.or_eq_false_iff, Bool.and_eq_false_iff] at h
    cases fuel with
    | zero => rfl
    | succ f =>
      simp only [replWordF]
      by_cases hK : c = 'K' ∧ prevW = false
      · rw [if_pos hK]
        cases hm : matchPrefix exEq wordPatTail cs with
        | some rest =>
          have hnw : nextNotWord rest = false := by
            rcases h.1 with h1 | h1
            · rcases h1 with h1 | h1
              · rw [decide_eq_true hK.1] at h1
                cases h1
              · rw [hK.2] at h1
                cases h1
            · rw [hm] at h1
              exact h1
          dsimp only
          rw [if_neg (by rw [hnw]; exact Bool.false_ne_true)]
          rw [ih (isWordChar c) h.2 f]
        | none =>
          dsimp only
          rw [ih (isWordChar c) h.2 f]
      · rw [if_neg hK]
        rw [ih (isWordChar c) h.2 f]

theorem substKeyword_fixed_of_clean (u k : String)
    (h1 : hasCI u.toList = false) (h2 : hasUC u.toList = false)
    (h3 : hasWordAux false u.toList = false) :
    substKeyword u k = u := by
  unfold hasCI at h1
  unfold hasUC at h2
  unfold substKeyword replCI replUC replWordAux replaceScan
  rw [replaceScanF_id_of_no_match ciEq _ _ _ u.toList h1 u.toList.length]
  rw [replaceScanF_id_of_no_match exEq _ _ _ u.toList h2 u.toList.length]
  rw [replWordF_id_of_no_match k.toList u.toList false h3 u.toList.length]
  rfl

/-- Claim C9 counterexample: substitution is not idempotent.  With keyword
`"w"` and template `{{key{{keyword}}ord}}` (braces written escaped), the
first pass replaces the inner placeholder and *creates* the placeholder
`{{keyword}}`, which a second pass then replaces, so running substitution
twice differs from running it once. -/
theorem substKeyword_not_idempotent :
    substKeyword (substKeyword "\x7b\x7bkey\x7b\x7bkeyword\x7d\x7dord\x7d\x7d" "w") "w" ≠
      substKeyword "\x7b\x7bkey\x7b\x7bkeyword\x7d\x7dord\x7d\x7d" "w" := by
  decide

/-- Claim C9 amended: substitution leaves a placeholder-free string unchanged,
so it is idempotent at every template whose once-substituted output contains
no `{{keyword}}` (any case), no `{{KEYWORD}}`, and no bare whole word
`KEYWORD`; in general (when the first pass manufactures a new placeholder)
idempotence fails. -/
theorem substKeyword_idempotent_of_clean (t k : String)
    (h1 : hasCI (substKeyword t k).toList = false)
    (h2 : hasUC (substKeyword t k).toList = false)
    (h3 : hasWordAux false (substKeyword t k).toList = false) :
    substKeyword (substKeyword t k) k = substKeyword t k :=
  substKeyword_fixed_of_clean (substKeyword t k) k h1 h2 h3

/-- Witness for C9: keyword `"junk removal"` on a placeholder-bearing
template whose output is placeholder-free, hence idempotent. -/
theorem substKeyword_idempotent_of_clean_witness :
    substKeyword (substKeyword "Write about \x7b\x7bKEYWORD\x7d\x7d today" "junk removal") "junk removal" =
      substKeyword "Write about \x7b\x7bKEYWORD\x7d\x7d today" "junk removal" := by
  exact substKeyword_idempotent_of_clean "Write about \x7b\x7bKEYWORD\x7d\x7d today" "junk removal"
    (by decide) (by decide) (by decide)
